import Mathlib

/-!
Verification development for the coda-mapper repository: a shallow embedding
of the identity-map cache, dirty tracking, value decoding and lazy relation
resolution implemented by `CodaTable` and `CodaMapper`, together with theorems
settling the specification claims.

Embedding conventions:
per-class declaration metadata (`@TableId`, `@ColumnId`, `@References`,
`@Multiple`) is a static `Meta` table; JavaScript objects holding row state
(`CodaTable` instances) live in a heap indexed by natural numbers, so that
JavaScript reference identity is identity of heap indices; the mapper's
identity cache is an association list from `tableId:rowId` keys to heap
indices; strings are compared as Unicode scalar sequences (all inputs used in
the theorems are ASCII, where this agrees with JavaScript's UTF-16 view).
-/

namespace Coda

/-- A JavaScript runtime value stored in an entity field: `undefined`, `null`,
a primitive, a reference to a `CodaTable` instance in the heap, or an array.
Arrays are modelled structurally; JavaScript compares array objects by
reference, so the strict-equality function below never identifies two array
values, and theorems that depend on element comparisons restrict to flat
arrays (arrays whose elements are not themselves arrays), which is the shape
produced by the decoder for multi-valued columns. -/
inductive Value where
  | undef
  | null
  | str (s : String)
  | int (n : Int)
  | bool (b : Bool)
  | ref (e : Nat)
  | arr (elems : List Value)
deriving Repr

/-- Structural equality on values, used only to state spec-side properties
(never inside the embedded code paths). -/
def Value.beq : Value → Value → Bool
  | .undef, .undef => true
  | .null, .null => true
  | .str a, .str b => a == b
  | .int a, .int b => a == b
  | .bool a, .bool b => a == b
  | .ref a, .ref b => a == b
  | .arr xs, .arr ys => go xs ys
  | _, _ => false
where go : List Value → List Value → Bool
  | [], [] => true
  | x :: xs, y :: ys => Value.beq x y && go xs ys
  | _, _ => false

/-- JavaScript strict equality `===` restricted to the values that occur in
entity fields. Primitives compare by value, entity references by object
identity (heap index). Two array mentions are never identified: in the source
every comparison site compares either primitives, entity references, or
`undefined`, and array fields are compared element by element, so this
function is only ever applied at non-array values in the developments below
(enforced through flatness hypotheses). -/
def jsEq : Value → Value → Bool
  | .undef, .undef => true
  | .null, .null => true
  | .str a, .str b => a == b
  | .int a, .int b => a == b
  | .bool a, .bool b => a == b
  | .ref a, .ref b => a == b
  | _, _ => false

/-- JavaScript truthiness of a field value. -/
def truthy : Value → Bool
  | .undef => false
  | .null => false
  | .str s => !(s == "")
  | .int n => !(n == 0)
  | .bool b => b
  | .ref _ => true
  | .arr _ => true

/-- A value that is not an array. -/
def Value.notArr : Value → Bool
  | .arr _ => false
  | _ => true

/-- A value is flat when it is not an array of arrays. -/
def Value.flat : Value → Bool
  | .arr elems => elems.all fun v => Value.notArr v
  | _ => true

/-- Declared metadata of one entity-class property: its name, its remote
column id (`@ColumnId`), its related class (`@References`) and its
multiplicity (`@Multiple`). -/
structure FieldMeta where
  name : String
  columnId : Option String := none
  relatedType : Option String := none
  multiple : Bool := false
deriving DecidableEq, Repr

/-- Declared metadata of one entity class: its name, its remote table id
(`@TableId`), its superclass (for `instanceof`) and its declared fields in
declaration order. -/
structure ClassMeta where
  name : String
  tableId : Option String := none
  parent : Option String := none
  fields : List FieldMeta := []
deriving DecidableEq, Repr

/-- The static declaration table, one entry per entity class. -/
abbrev Meta := List ClassMeta

def findClass (meta : Meta) (c : String) : Option ClassMeta :=
  meta.find? fun cm => cm.name == c

def findField (meta : Meta) (c f : String) : Option FieldMeta :=
  (findClass meta c).bind fun cm => cm.fields.find? fun fm => fm.name == f

/-- Embeds `getRelation` from utils: the related class declared for a field,
if any. -/
def relOf (meta : Meta) (c f : String) : Option String :=
  (findField meta c f).bind fun fm => fm.relatedType

/-- Embeds `getColumnId` from utils. -/
def colOf (meta : Meta) (c f : String) : Option String :=
  (findField meta c f).bind fun fm => fm.columnId

/-- Embeds `getMultiple` from utils. -/
def mulOf (meta : Meta) (c f : String) : Bool :=
  ((findField meta c f).map fun fm => fm.multiple).getD false

/-- Embeds `getTableId` from utils. -/
def tableIdOf (meta : Meta) (c : String) : Option String :=
  (findClass meta c).bind fun cm => cm.tableId

/-- Walk of the superclass chain with fuel, supporting `instanceof`. -/
def isSubclassOf (meta : Meta) : Nat → String → String → Bool
  | 0, _, _ => false
  | fuel + 1, c, target =>
      c == target ||
        match (findClass meta c).bind fun cm => cm.parent with
        | some p => isSubclassOf meta fuel p target
        | none => false

/-- JavaScript `instanceof` on class names: the class equals the target or
inherits from it. -/
def instanceOf (meta : Meta) (c target : String) : Bool :=
  isSubclassOf meta (meta.length + 1) c target

/-- One `CodaTable` instance: its class, its own enumerable non-underscore
properties in insertion order (`fields`), the `_original` snapshot, the
`_isDirty` flag, the `_state` flags and whether `_mapper` has been assigned. -/
structure Entity where
  className : String
  fields : List (String × Value)
  original : List (String × Value)
  isDirtyFlag : Bool
  existsOnCoda : Bool
  isFetched : Bool
  hasMapper : Bool
deriving Repr

def dummyEntity : Entity :=
  { className := "", fields := [], original := [], isDirtyFlag := false,
    existsOnCoda := false, isFetched := false, hasMapper := false }

instance : Inhabited Entity := ⟨dummyEntity⟩

/-- Embeds `prop.startsWith('_')` by direct character inspection (the
built-in `String.startsWith` does not reduce in the kernel). -/
def startsWithUnderscore (s : String) : Bool :=
  match s.toList with
  | c :: _ => c == '_'
  | [] => false

/-- Prefix test on character lists. -/
def listIsPrefixOf : List Char → List Char → Bool
  | [], _ => true
  | _ :: _, [] => false
  | p :: ps, c :: cs => p == c && listIsPrefixOf ps cs

/-- Embeds `String.prototype.startsWith` for the inputs used here. -/
def strStartsWith (s pre : String) : Bool := listIsPrefixOf pre.toList s.toList

/-- Embeds `String.prototype.endsWith` for the inputs used here. -/
def strEndsWith (s suf : String) : Bool :=
  listIsPrefixOf suf.toList.reverse s.toList.reverse

/-- The mutable world: the heap of `CodaTable` instances and the mapper's
identity cache from `tableId:rowId` keys to heap indices. -/
structure MState where
  heap : List Entity
  cache : List ((String × String) × Nat)
deriving Repr

def MState.empty : MState := { heap := [], cache := [] }

def getEntity (st : MState) (e : Nat) : Option Entity := st.heap[e]?

def entityAt (st : MState) (e : Nat) : Entity := (getEntity st e).getD dummyEntity

def updateEntity (st : MState) (e : Nat) (f : Entity → Entity) : MState :=
  { st with heap := st.heap.set e (f (entityAt st e)) }

/-- Update or append a binding in an association list, preserving key order
like key assignment on a JavaScript object or `Map`. -/
def updAssoc {α β : Type} [BEq α] (l : List (α × β)) (k : α) (v : β) : List (α × β) :=
  if l.any fun kv => kv.1 == k then
    l.map fun kv => if kv.1 == k then (k, v) else kv
  else l ++ [(k, v)]

/-- Lookup in an association list, returning the first binding of the key. -/
def lookupAssoc {α β : Type} [BEq α] (l : List (α × β)) (k : α) : Option β :=
  (l.find? fun kv => kv.1 == k).map fun kv => kv.2

def setKV (l : List (String × Value)) (k : String) (v : Value) : List (String × Value) :=
  updAssoc l k v

def lookupKV (l : List (String × Value)) (k : String) : Option Value :=
  lookupAssoc l k

/-- Reading an own property; an absent property reads as `undefined`. -/
def fieldValue (e : Entity) (p : String) : Value := (lookupKV e.fields p).getD (.undef)

/-- Embeds `Object.hasOwn(this._original, prop)`. -/
def hasOwnOriginal (e : Entity) (p : String) : Bool :=
  e.original.any fun kv => kv.1 == p

/-- Reading `this._original[prop]`; absent keys read as `undefined`. -/
def originalValue (e : Entity) (p : String) : Value :=
  (lookupKV e.original p).getD .undef

def cacheLookup (st : MState) (k : String × String) : Option Nat :=
  lookupAssoc st.cache k

def cacheInsert (st : MState) (k : String × String) (e : Nat) : MState :=
  { st with cache := updAssoc st.cache k e }

/-- Embeds `(this._original[prop] ?? [])[i]`: indexing into the snapshot value
of a field. Indexing a string yields its character at that position (as in
JavaScript, up to the UTF-16 versus scalar caveat in the header); indexing
`undefined`/`null` (coalesced to `[]`) or any other non-array yields
`undefined`. -/
def origIndex (ov : Value) (i : Nat) : Value :=
  match ov with
  | .arr elems => elems.getD i .undef
  | .str s =>
      match s.toList[i]? with
      | some c => .str (String.mk [c])
      | none => .undef
  | _ => (.undef)

/-- Embeds the dirtiness computation the proxy `set` trap performs for the
assigned property, and identically the per-key test in `getDirtyValues`: a
key missing from `_original` is dirty; an array value is dirty when some
element at an index of the current array differs strictly from the snapshot
element at that index; any other value is dirty when it differs strictly from
its snapshot. -/
def propDirty (e : Entity) (p : String) (v : Value) : Bool :=
  if !(hasOwnOriginal e p) then true
  else
    match v with
    | .arr elems =>
        (List.range elems.length).any fun i =>
          !(jsEq (elems.getD i .undef) (origIndex (originalValue e p) i))
    | v => !(jsEq v (originalValue e p))

/-- Embeds `getValues`: all own enumerable properties whose key does not start
with an underscore, read directly (bypassing the proxy). -/
def getValues (e : Entity) : List (String × Value) :=
  e.fields.filter fun kv => !(startsWithUnderscore kv.1)

/-- Embeds `getDirtyValues`: the subset of `getValues` whose per-key dirtiness
test succeeds. -/
def getDirtyValues (e : Entity) : List (String × Value) :=
  (getValues e).filter fun kv => propDirty e kv.1 kv.2

/-- Embeds `isDirty`. -/
def isDirty (e : Entity) : Bool := e.isDirtyFlag

/-- Embeds `_resetDirty`: snapshot the current values and clear the flag. -/
def resetDirty (e : Entity) : Entity :=
  { e with original := getValues e, isDirtyFlag := false }

/-- Errors surfaced by the embedded code: `enforce` failures carry their
message; `typeErr` stands for a JavaScript `TypeError` (such as reading
`.constructor` of `undefined` while building an error message). -/
inductive JsErr where
  | thrown (msg : String)
  | typeErr
deriving DecidableEq, Repr

/-- The JavaScript `constructor.name` of a value, `none` when reading it
would raise a `TypeError`. -/
def ctorName (st : MState) : Value → Option String
  | .undef => none
  | .null => none
  | .str _ => some ("String")
  | .int _ => some ("Number")
  | .bool _ => some ("Boolean")
  | .arr _ => some ("Array")
  | .ref e => (getEntity st e).map fun ent => ent.className

/-- Embeds `enforce(item instanceof relation, 'Expected R but got C')` for a
single candidate value. -/
def checkInstance (meta : Meta) (st : MState) (v : Value) (rel : String) : Except JsErr Unit :=
  match v with
  | .ref e =>
      match getEntity st e with
      | some ent =>
          if instanceOf meta ent.className rel then .ok ()
          else .error (.thrown ("Expected " ++ rel ++ " but got " ++ ent.className))
      | none => .error .typeErr
  | v =>
      match ctorName st v with
      | some n => .error (.thrown ("Expected " ++ rel ++ " but got " ++ n))
      | none => .error .typeErr

/-- Per-element `instanceof` enforcement for an assigned array. -/
def checkInstanceList (meta : Meta) (st : MState) (rel : String) : List Value → Except JsErr Unit
  | [] => .ok ()
  | v :: rest =>
      match checkInstance meta st v rel with
      | .ok _ => checkInstanceList meta st rel rest
      | .error err => .error err

/-- Embeds the proxy `set` trap for a non-underscore property: validate the
declared relation type (each element of an assigned array, or the assigned
value itself when truthy), compute the written property's dirtiness against
the snapshot, store the value, clear the dirtiness when `getDirtyValues` comes
out empty, and store the resulting flag in `_isDirty`. -/
def setField (meta : Meta) (st : MState) (e : Nat) (p : String) (v : Value) :
    Except JsErr MState :=
  let ent := entityAt st e
  let checked : Except JsErr Unit :=
    if startsWithUnderscore p then .ok ()
    else
      match relOf meta ent.className p with
      | some rel =>
          match v with
          | .arr elems => checkInstanceList meta st rel elems
          | v => if truthy v then checkInstance meta st v rel else .ok ()
      | none => .ok ()
  match checked with
  | .error err => .error err
  | .ok _ =>
      let dirty := if startsWithUnderscore p then false else propDirty ent p v
      let ent1 := { ent with fields := setKV ent.fields p v }
      let dirty1 := if (getDirtyValues ent1).isEmpty then false else dirty
      .ok (updateEntity st e fun _ => { ent1 with isDirtyFlag := dirty1 })

/-- The property name of the row id. -/
def idKey : String := "id"

/-- A single apostrophe, used in embedded error messages. -/
def aposStr : String := String.singleton (Char.ofNat 39)

/-- Embeds `new table()` for a declared class: every declared field is an own
property initialised to `undefined` (class-field semantics), the snapshot is
empty, the flags are cleared and no mapper is attached. -/
def newEntity (meta : Meta) (c : String) : Entity :=
  { className := c
  , fields :=
      match findClass meta c with
      | some cm => cm.fields.map fun fm => (fm.name, Value.undef)
      | none => []
  , original := []
  , isDirtyFlag := false
  , existsOnCoda := false
  , isFetched := false
  , hasMapper := false }

/-- The optional `state` argument of `_assign`: only the provided flags are
merged into `_state`. -/
structure StateArg where
  existsOnCoda : Option Bool := none
  isFetched : Option Bool := none

/-- Assign a list of values through the proxy `set` trap, in order. -/
def assignValues (meta : Meta) : MState → Nat → List (String × Value) → Except JsErr MState
  | st, _, [] => .ok st
  | st, e, (k, v) :: rest =>
      match setField meta st e k v with
      | .error err => .error err
      | .ok st1 => assignValues meta st1 e rest

/-- Modelled from the spec: the revision of `CodaTable` that pairs with the
current `CodaMapper` (the one providing `getMeta` and the four-argument
`_assign` its callers and tests use) is absent from the sources; per the
spec's Identity Cache contract and the repository test that expects
`mapper._getCache().get('table_id:id_value')` to hold a row right after
`insert`, `_assign` registers the entity in the mapper's identity cache under
the key built from the class's declared table id and the entity's `id`, when
both are available. -/
def registerInCache (meta : Meta) (st : MState) (e : Nat) : MState :=
  match getEntity st e with
  | none => st
  | some ent =>
      match tableIdOf meta ent.className, fieldValue ent idKey with
      | some t, .str rid => if rid == "" then st else cacheInsert st (t, rid) e
      | _, _ => st

/-- The state-merging step of `_assign`: attach the mapper and merge the
provided state flags into `_state`. -/
def attachMapper (stateArg : StateArg) (ent : Entity) : Entity :=
  { ent with hasMapper := true
           , existsOnCoda := stateArg.existsOnCoda.getD ent.existsOnCoda
           , isFetched := stateArg.isFetched.getD ent.isFetched }

/-- Embeds `CodaTable._assign`: attach the mapper, merge the provided state
flags into `_state`, assign each provided value through the proxy setter in
order, reset the dirty snapshot, and register the entity in the identity
cache (the registration step is modelled from the spec, see
`registerInCache`). -/
def tableAssign (meta : Meta) (st : MState) (e : Nat) (stateArg : StateArg)
    (values : List (String × Value)) : Except JsErr MState :=
  let st1 := updateEntity st e (attachMapper stateArg)
  match assignValues meta st1 e values with
  | .error err => .error err
  | .ok st2 => .ok (registerInCache meta (updateEntity st2 e resetDirty) e)

/-- A wire-format cell value in the `rich` value format: primitives, the
structured rich shapes the decoder recognises, and arrays. -/
inductive Rich where
  | str (s : String)
  | int (n : Int)
  | bool (b : Bool)
  | monetary (currency : String) (amount : Int)
  | structured (nm rowId tableId : String)
  | webPage (nm url : String)
  | imageObject (nm url : String)
  | person (nm email : String)
  | arr (elems : List Rich)
deriving Repr

/-- The triple-backtick fence marking escaped rich text. -/
def fenceStr : String := "```"

/-- Embeds `String.prototype.substring`: clamp both positions to the string
length and swap them when given in descending order. -/
def jsSubstring (s : String) (a b : Nat) : String :=
  let n := s.toList.length
  let lo := min (min a n) (min b n)
  let hi := max (min a n) (min b n)
  String.mk ((s.toList.drop lo).take (hi - lo))

/-- Embeds `value.replace(/\\`/g, '`')`: every backslash-backtick pair becomes
a backtick, scanning left to right. -/
def unescapeBackticks : List Char → List Char
  | '\\' :: '`' :: rest => '`' :: unescapeBackticks rest
  | c :: rest => c :: unescapeBackticks rest
  | [] => []

/-- The string branch of `decodeRichValue` for a non-empty-multiple string:
strip a surrounding triple-backtick fence, then unescape backticks. -/
def strDecode (s : String) : String :=
  let s1 :=
    if strStartsWith s fenceStr && strEndsWith s fenceStr then jsSubstring s 3 (s.toList.length - 3)
    else s
  String.mk (unescapeBackticks s1.toList)

/-- Wrap a decoded scalar into a singleton array when the field is declared
multiple; embeds the `!Array.isArray(value) && multiple` branch, which recurses
on the same value with multiplicity off and wraps the result. -/
def wrapIf (m : Bool) (v : Value) : Value := if m then .arr [v] else v

mutual
/-- Embeds `CodaMapper.decodeRichValue`. Branch order follows the source:
strings first (an empty string on a multiple field decodes to an empty
array, any other string is unfenced and unescaped and is never wrapped);
arrays decode element-wise with multiplicity off; any other value on a
multiple field decodes as a scalar and is wrapped into a singleton array; a
structured relation reference resolves through the identity cache, or
constructs and assigns a fresh placeholder of the declared related class
(raising a configuration error when no related class is declared); the other
rich shapes project to their designated scalar. -/
def decodeRichValue (meta : Meta) (st : MState) (v : Rich) (relation : Option String)
    (multiple : Bool) (className keyName : String) : Except JsErr (MState × Value) :=
  match v with
  | .str s =>
      if multiple && s == "" then .ok (st, .arr [])
      else .ok (st, .str (strDecode s))
  | .arr elems =>
      match decodeRichList meta st elems relation className keyName with
      | .ok (st1, vs) => .ok (st1, .arr vs)
      | .error err => .error err
  | .int n => .ok (st, wrapIf multiple (.int n))
  | .bool b => .ok (st, wrapIf multiple (.bool b))
  | .monetary _ amount => .ok (st, wrapIf multiple (.int amount))
  | .webPage _ url => .ok (st, wrapIf multiple (.str url))
  | .imageObject _ url => .ok (st, wrapIf multiple (.str url))
  | .person _ email => .ok (st, wrapIf multiple (.str email))
  | .structured _ rowId tableId =>
      match cacheLookup st (tableId, rowId) with
      | some cached => .ok (st, wrapIf multiple (.ref cached))
      | none =>
          match relation with
          | none =>
              .error (.thrown ("@RelatedTable not set for row \"" ++ keyName ++
                "\" on table " ++ className ++ "."))
          | some rel =>
              let st1 : MState := { st with heap := st.heap ++ [newEntity meta rel] }
              match tableAssign meta st1 st.heap.length { existsOnCoda := some true }
                  [(idKey, .str rowId)] with
              | .error err => .error err
              | .ok st2 => .ok (st2, wrapIf multiple (.ref st.heap.length))

/-- Element-wise decoding of a wire array, threading the state; elements are
decoded with multiplicity off. -/
def decodeRichList (meta : Meta) (st : MState) (vs : List Rich) (relation : Option String)
    (className keyName : String) : Except JsErr (MState × List Value) :=
  match vs with
  | [] => .ok (st, [])
  | v :: rest =>
      match decodeRichValue meta st v relation false className keyName with
      | .error err => .error err
      | .ok (st1, d) =>
          match decodeRichList meta st1 rest relation className keyName with
          | .error err => .error err
          | .ok (st2, ds) => .ok (st2, d :: ds)
end

/-- One row of a row response: the remote row id and its cell values keyed by
column id. -/
structure DtoRow where
  id : String
  values : List (String × Rich)
deriving Repr

def lookupWire (values : List (String × Rich)) (col : String) : Option Rich :=
  lookupAssoc values col

/-- The field-decoding loop of `parseDtoRow`: for every declared field except
`id`, require its column id, decode its wire value when the column is present
(an absent column decodes to `undefined`), and collect the parsed values in
field order. -/
def buildParsedValues (meta : Meta) (table : String) (dto : DtoRow) :
    MState → List FieldMeta → Except JsErr (MState × List (String × Value))
  | st, [] => .ok (st, [])
  | st, fm :: rest =>
      if fm.name == idKey then buildParsedValues meta table dto st rest
      else
        match fm.columnId with
        | none =>
            .error (.thrown ("@ColumnId not set for property \"" ++ fm.name ++
              "\" in class " ++ table))
        | some col =>
            let step : Except JsErr (MState × Value) :=
              match lookupWire dto.values col with
              | none => .ok (st, .undef)
              | some w => decodeRichValue meta st w fm.relatedType fm.multiple table fm.name
            match step with
            | .error err => .error err
            | .ok (st1, v) =>
                match buildParsedValues meta table dto st1 rest with
                | .error err => .error err
                | .ok (st2, pvs) => .ok (st2, (fm.name, v) :: pvs)

/-- Embeds `CodaMapper.parseDtoRow`: construct a fresh row instance, decode
every declared field from the response, append the row id, then either merge
the parsed values in place into the cached entity for this `tableId:rowId`
key (returning the cached instance) or assign them to the fresh instance. -/
def parseDtoRow (meta : Meta) (st : MState) (table : String) (dto : DtoRow) :
    Except JsErr (MState × Nat) :=
  let rowE := st.heap.length
  let st1 : MState := { st with heap := st.heap ++ [newEntity meta table] }
  let fms := ((findClass meta table).map fun cm => cm.fields).getD []
  match buildParsedValues meta table dto st1 fms with
  | .error err => .error err
  | .ok (st2, pvs) =>
      let parsedValues := pvs ++ [(idKey, .str dto.id)]
      let key := ((tableIdOf meta table).getD ("undefined"), dto.id)
      match cacheLookup st2 key with
      | some cached =>
          match tableAssign meta st2 cached
              { existsOnCoda := some true, isFetched := some true } parsedValues with
          | .error err => .error err
          | .ok st3 => .ok (st3, cached)
      | none =>
          match tableAssign meta st2 rowE
              { existsOnCoda := some true, isFetched := some true } parsedValues with
          | .error err => .error err
          | .ok st3 => .ok (st3, rowE)

/-- The remote document: rows addressable by table id and row id. A missing
entry stands for the 404 response that `get` surfaces as `null`. -/
abbrev Remote := List ((String × String) × DtoRow)

def remoteLookup (remote : Remote) (k : String × String) : Option DtoRow :=
  lookupAssoc remote k

/-- Embeds `CodaMapper.get`: require the declared table id, fetch the row,
return `none` on 404, otherwise parse the response. -/
def mapperGet (meta : Meta) (remote : Remote) (st : MState) (table rowId : String) :
    Except JsErr (MState × Option Nat) :=
  let t := (tableIdOf meta table).getD ""
  if t == "" then .error (.thrown ("@TableId not set for class " ++ table))
  else
    match remoteLookup remote (t, rowId) with
    | none => .ok (st, none)
    | some dto =>
        match parseDtoRow meta st table dto with
        | .error err => .error err
        | .ok (st1, e) => .ok (st1, some e)

/-- Display form of a value interpolated into an error message. -/
def jsDisplay : Value → String
  | .str s => s
  | .undef => "undefined"
  | .null => "null"
  | .int n => toString n
  | .bool b => toString b
  | .ref _ => "[object Object]"
  | .arr _ => ""

/-- Embeds `CodaMapper.refresh`: require a remote identity (`existsOnCoda`
and a truthy `id`), fetch and parse the row (which merges into the cached
instance), fail when the row no longer exists, and return the same entity.
Non-string truthy ids do not arise in the embedded flows and are mapped to a
type error. -/
def mapperRefresh (meta : Meta) (remote : Remote) (st : MState) (e : Nat) :
    Except JsErr (MState × Nat) :=
  let ent := entityAt st e
  let idv := fieldValue ent idKey
  if ent.existsOnCoda && truthy idv then
    match idv with
    | .str rid =>
        match mapperGet meta remote st ent.className rid with
        | .error err => .error err
        | .ok (st1, some _) => .ok (st1, e)
        | .ok (_, none) =>
            .error (.thrown ("Refreshing row \"" ++ rid ++ "\" on table " ++
              ent.className ++ " does not exist anymore."))
    | _ => .error .typeErr
  else
    .error (.thrown ("Unable to refresh row \"" ++ jsDisplay idv ++
      "\". This row hasn" ++ aposStr ++ "t been inserted to or fetched from Coda."))

/-- Embeds `CodaTable.pull` (named `refresh` in some revisions): require the
mapper and delegate to the mapper's refresh. -/
def tablePull (meta : Meta) (remote : Remote) (st : MState) (e : Nat) :
    Except JsErr (MState × Nat) :=
  let ent := entityAt st e
  if ent.hasMapper then mapperRefresh meta remote st e
  else
    .error (.thrown ("Unable to refresh row \"" ++ jsDisplay (fieldValue ent idKey) ++
      "\". This row hasn" ++ aposStr ++ "t been inserted to or fetched from Coda."))

/-- The outcome of a proxy `get` on a relation field: a synchronous value, a
pending resolution promise for a single placeholder, or a `Promise.all` over
an array whose entries record each element and whether a resolving pull was
started for it. -/
inductive ReadResult where
  | val (v : Value)
  | promiseOne (target : Nat)
  | promiseAll (items : List (Nat × Bool))
deriving Repr

/-- The per-element loop of the proxy `get` trap on a relation array: enforce
`instanceof` for every element and record whether it needs resolution. -/
def getTrapArray (meta : Meta) (st : MState) (rel : String) :
    List Value → Except JsErr (List (Nat × Bool))
  | [] => .ok []
  | v :: rest =>
      match v with
      | .ref r =>
          match getEntity st r with
          | some rent =>
              if instanceOf meta rent.className rel then
                match getTrapArray meta st rel rest with
                | .ok pairs => .ok ((r, rent.existsOnCoda && !rent.isFetched) :: pairs)
                | .error err => .error err
              else .error (.thrown ("Expected " ++ rel ++ " but got " ++ rent.className))
          | none => .error .typeErr
      | v' =>
          match ctorName st v' with
          | some n => .error (.thrown ("Expected " ++ rel ++ " but got " ++ n))
          | none => .error .typeErr

/-- Embeds the proxy `get` trap: non-relation properties, `undefined` values
and empty arrays are returned as stored; a single relation value must be an
instance of the declared class and yields either the value itself or a
resolution promise depending on its fetch state; a relation array yields
either the array itself or one `Promise.all` when some element needs
resolution. -/
def getTrap (meta : Meta) (st : MState) (e : Nat) (p : String) : Except JsErr ReadResult :=
  let ent := entityAt st e
  match relOf meta ent.className p with
  | none => .ok (.val (fieldValue ent p))
  | some rel =>
      match fieldValue ent p with
      | .undef => .ok (.val .undef)
      | .arr [] => .ok (.val (.arr []))
      | .arr elems =>
          match getTrapArray meta st rel elems with
          | .error err => .error err
          | .ok pairs =>
              if pairs.any fun pr => pr.2 then .ok (.promiseAll pairs)
              else .ok (.val (.arr elems))
      | .ref r =>
          match getEntity st r with
          | some rent =>
              if instanceOf meta rent.className rel then
                if rent.existsOnCoda && !rent.isFetched then .ok (.promiseOne r)
                else .ok (.val (.ref r))
              else .error (.thrown ("Expected " ++ rel ++ " but got " ++ rent.className))
          | none => .error .typeErr
      | v =>
          match ctorName st v with
          | some n => .error (.thrown ("Expected " ++ rel ++ " but got " ++ n))
          | none => .error .typeErr

/-- Awaiting the resolution promise of one placeholder: run its pull and
yield the entity it settles with. -/
def awaitOne (meta : Meta) (remote : Remote) (st : MState) (t : Nat) :
    Except JsErr (MState × Value) :=
  match tablePull meta remote st t with
  | .error err => .error err
  | .ok (st1, r) => .ok (st1, .ref r)

/-- Awaiting `Promise.all` over the recorded array entries: entries whose pull
was started resolve through it, the others contribute their entity directly.
The cooperative single-task semantics runs the pulls in array order. -/
def awaitAll (meta : Meta) (remote : Remote) :
    MState → List (Nat × Bool) → Except JsErr (MState × List Value)
  | st, [] => .ok (st, [])
  | st, (t, needs) :: rest =>
      let step : Except JsErr (MState × Value) :=
        if needs then awaitOne meta remote st t else .ok (st, .ref t)
      match step with
      | .error err => .error err
      | .ok (st1, v) =>
          match awaitAll meta remote st1 rest with
          | .error err => .error err
          | .ok (st2, vs) => .ok (st2, v :: vs)

/-- Awaiting the outcome of a proxy `get`: a plain value awaits to itself, the
promises run their pending pulls. -/
def awaitRead (meta : Meta) (remote : Remote) (st : MState) :
    ReadResult → Except JsErr (MState × Value)
  | .val v => .ok (st, v)
  | .promiseOne t => awaitOne meta remote st t
  | .promiseAll items =>
      match awaitAll meta remote st items with
      | .error err => .error err
      | .ok (st1, vs) => .ok (st1, .arr vs)

/-- Embeds `CodaMapper.encodeValue`: an entity encodes to its `id` property,
arrays encode element-wise, anything else passes through unchanged. No case
raises an error. -/
def encodeValue (st : MState) : Value → Value
  | .ref e =>
      match getEntity st e with
      | some ent => fieldValue ent idKey
      | none => .undef
  | .arr elems => .arr (go elems)
  | v => v
where go : List Value → List Value
  | [] => []
  | v :: rest => encodeValue st v :: go rest

/-- The key-selection reduce of `parseCodaRow`: keep the values that are dirty
or explicitly included, and drop `id` unless explicitly included. -/
def sentValues (e : Entity) (includes : List String) : List (String × Value) :=
  (getValues e).filter fun kv =>
    (((getDirtyValues e).any fun dv => dv.1 == kv.1) || includes.contains kv.1) &&
      (!(kv.1 == idKey) || includes.contains idKey)

/-- The cell-construction map of `parseCodaRow`: require a column id for every
sent property and encode its value. -/
def buildCells (meta : Meta) (st : MState) (cls : String) :
    List (String × Value) → Except JsErr (List (String × Value))
  | [] => .ok []
  | (k, v) :: rest =>
      match colOf meta cls k with
      | none =>
          .error (.thrown ("@ColumnId not set for property \"" ++ k ++
            "\" in class " ++ cls))
      | some col =>
          match buildCells meta st cls rest with
          | .error err => .error err
          | .ok cells => .ok ((col, encodeValue st v) :: cells)

/-- Embeds `CodaMapper.parseCodaRow`: serialise an entity's dirty (or
explicitly included) values into cells of column id and encoded value. -/
def parseCodaRow (meta : Meta) (st : MState) (e : Nat) (includes : List String) :
    Except JsErr (List (String × Value)) :=
  buildCells meta st (entityAt st e).className (sentValues (entityAt st e) includes)

/-- Request construction of `insert`: serialise every row, surfacing the
first error. -/
def buildRequestRows (meta : Meta) (st : MState) : List Nat → Except JsErr Unit
  | [] => .ok ()
  | r :: rest =>
      match parseCodaRow meta st r [] with
      | .error err => .error err
      | .ok _ => buildRequestRows meta st rest

/-- The response loop of `insert`: assign each row its added row id at the
matching index (an out-of-range index reads as `undefined`), then reset its
dirty snapshot. -/
def insertAssignLoop (meta : Meta) (addedRowIds : List String) :
    MState → List Nat → Nat → Except JsErr MState
  | st, [], _ => .ok st
  | st, r :: rest, i =>
      let idv : Value :=
        match addedRowIds[i]? with
        | some s => .str s
        | none => .undef
      match tableAssign meta st r { existsOnCoda := some true } [(idKey, idv)] with
      | .error err => .error err
      | .ok st1 => insertAssignLoop meta addedRowIds (updateEntity st1 r resetDirty) rest (i + 1)

/-- Embeds `CodaMapper.insert` given the remote response's `addedRowIds`:
reject rows that already have an id, reject an empty batch, require the table
id of the first row's class, serialise the request, then assign ids and reset
dirtiness row by row. -/
def insertRows (meta : Meta) (st : MState) (rows : List Nat) (addedRowIds : List String) :
    Except JsErr MState :=
  if !(rows.all fun r => !(truthy (fieldValue (entityAt st r) idKey))) then
    .error (.thrown ("All rows must not have an id to insert"))
  else
    match rows with
    | [] => .error (.thrown ("No rows to insert"))
    | r0 :: _ =>
        let cls := (entityAt st r0).className
        if ((tableIdOf meta cls).getD "") == "" then
          .error (.thrown ("@TableId not set for class " ++ cls))
        else
          match buildRequestRows meta st rows with
          | .error err => .error err
          | .ok _ => insertAssignLoop meta addedRowIds st rows 0

/-- Spec-side notion of a changed value: the current and snapshot values
differ, with arrays compared element-wise by position and relation values by
entity identity (structural inequality of `Value`). -/
def specDiffers (current original : Value) : Bool := !(Value.beq current original)

/-- Spec-side test that a value is an instance of a declared related class:
it must be a live entity reference whose class is the declared class or a
subclass of it. -/
def isInstanceValue (meta : Meta) (st : MState) (v : Value) (rel : String) : Bool :=
  match v with
  | .ref r =>
      match getEntity st r with
      | some ent => instanceOf meta ent.className rel
      | none => false
  | _ => false

/-- Property keys of an entity are pairwise distinct, as they are for any
JavaScript object. -/
def nodupKeys (l : List (String × Value)) : Prop := (l.map Prod.fst).Nodup

/-- Extract the state of a successful operation; fixtures below only apply it
to operations proved successful. -/
def okState (r : Except JsErr MState) : MState :=
  match r with
  | .ok s => s
  | .error _ => MState.empty

/-- Scenario harness: parse two row responses in sequence (two independent
fetches of possibly the same row), returning both entities and the final
state. -/
def fetchTwice (meta : Meta) (table : String) (dto1 dto2 : DtoRow) :
    Except JsErr (Nat × Nat × MState) :=
  match parseDtoRow meta MState.empty table dto1 with
  | .error err => .error err
  | .ok (st1, e1) =>
      match parseDtoRow meta st1 table dto2 with
      | .error err => .error err
      | .ok (st2, e2) => .ok (e1, e2, st2)

/-- Fixture metadata mirroring the repository test schema: a `TestTable` with
scalar fields, a multiple scalar field, a single relation and a multiple
relation to `RelatedTable`, plus a subclass of `RelatedTable`. -/
def mT : Meta := [
  { name := "TestTable", tableId := some ("test_table_id"),
    fields := [ { name := "id" },
      { name := "string", columnId := some ("string_column_id") },
      { name := "number", columnId := some ("number_column_id") },
      { name := "boolean", columnId := some ("boolean_column_id") },
      { name := "tags", columnId := some ("tags_column_id"), multiple := true },
      { name := "relatedTable", columnId := some ("related_table_column_id"),
        relatedType := some ("RelatedTable") },
      { name := "relatedTableArray", columnId := some ("related_table_array_column_id"),
        relatedType := some ("RelatedTable"), multiple := true } ] },
  { name := "RelatedTable",
    fields := [ { name := "id" }, { name := "string" } ] },
  { name := "SubRelatedTable", parent := some ("RelatedTable"),
    fields := [ { name := "id" }, { name := "string" } ] } ]

/-- Fixture heap: a fresh `TestTable` instance and a fresh `RelatedTable`
instance. -/
def fixBase : MState :=
  { heap := [newEntity mT ("TestTable"), newEntity mT ("RelatedTable")], cache := [] }

/-- Fixture for the dirty-flag staleness counterexample: assign two scalar
fields, snapshot, change one field, then write the other field back with its
snapshot value. -/
def c4StA : MState := okState (setField mT fixBase 0 ("number") (.int 1))

def c4StB : MState := okState (setField mT c4StA 0 ("boolean") (.bool true))

def c4StC : MState := updateEntity c4StB 0 resetDirty

def c4StD : MState := okState (setField mT c4StC 0 ("number") (.int 5))

def c4StE : MState := okState (setField mT c4StD 0 ("boolean") (.bool true))

/-- Fixture for the array-shrink counterexample: assign a two-element array,
snapshot, then assign the one-element prefix of it. -/
def c5StA : MState :=
  okState (setField mT fixBase 0 ("tags") (.arr [.str ("a"), .str ("b")]))

def c5StB : MState := updateEntity c5StA 0 resetDirty

def c5StC : MState := okState (setField mT c5StB 0 ("tags") (.arr [.str ("a")]))

/-- Fixture for the subclass-assignment counterexample: a `TestTable` instance
and a `SubRelatedTable` instance. -/
def c7St : MState :=
  { heap := [newEntity mT ("TestTable"), newEntity mT ("SubRelatedTable")], cache := [] }

/-- Fixture for the empty-string relation decode: a `TestTable` whose single
relation field was assigned the decoded empty string. -/
def c6St : MState := okState (setField mT fixBase 0 ("relatedTable") (.str ("")))

/-- Fixture for the unresolved-reference encode: a snapshot-clean `TestTable`
whose single relation field points at a `RelatedTable` with no row id. -/
def c8StA : MState := updateEntity fixBase 0 resetDirty

def c8StB : MState := okState (setField mT c8StA 0 ("relatedTable") (.ref 1))

/-- Fixture metadata for the identity scenario: one class with an `id` field
and one remote-backed text field, over an arbitrary table id. -/
def mC1 (t : String) : Meta := [
  { name := "C", tableId := some t,
    fields := [ { name := "id" }, { name := "name", columnId := some ("cn") } ] } ]

/-- Fixture metadata for the relation scenarios: class `A` holds a single
relation and a multiple relation to class `R`. -/
def mAR : Meta := [
  { name := "A", tableId := some ("tA"),
    fields := [ { name := "id" },
      { name := "rel", columnId := some ("cRel"), relatedType := some ("R") },
      { name := "rels", columnId := some ("cRels"), relatedType := some ("R"), multiple := true } ] },
  { name := "R", tableId := some ("tR"),
    fields := [ { name := "id" }, { name := "text", columnId := some ("cText") } ] } ]

/-- Fixture: a fetched `A` entity whose relation fields hold the placeholder
entities at heap indices 1 and 2. -/
def c3Holder : Entity :=
  { className := "A"
  , fields := [(("id"), .str ("a1")), (("rel"), .ref 1), (("rels"), .arr [.ref 1, .ref 2])]
  , original := [], isDirtyFlag := false
  , existsOnCoda := true, isFetched := true, hasMapper := true }

/-- Fixture: a mapper-attached placeholder `R` entity with the given row id. -/
def c3Placeholder (rid : String) : Entity :=
  { className := "R"
  , fields := [(("id"), .str rid), (("text"), Value.undef)]
  , original := [], isDirtyFlag := false
  , existsOnCoda := true, isFetched := false, hasMapper := true }

/-- Fixture state: the holder and two registered placeholders. -/
def c3St (rid1 rid2 : String) : MState :=
  { heap := [c3Holder, c3Placeholder rid1, c3Placeholder rid2]
  , cache := [((("tR"), rid1), 1), ((("tR"), rid2), 2)] }

/-- Fixture remote: one row of table `tR` per placeholder. -/
def c3Remote (rid1 rid2 w1 w2 : String) : Remote :=
  [ ((("tR"), rid1), { id := rid1, values := [(("cText"), .str w1)] })
  , ((("tR"), rid2), { id := rid2, values := [(("cText"), .str w2)] }) ]

/-- Fixture for the insert scenario: the fresh `TestTable` instance of
`fixBase` with `string` assigned. -/
def c9St : MState := okState (setField mT fixBase 0 ("string") (.str ("John")))

/-- C6: decoding the empty-string wire value. The first two conjuncts confirm
the multiple cases (scalar and relation both decode to an empty array) and
the third confirms the single non-relation case (the empty string passes
through unchanged); the fourth conjunct evaluates the code at the failing
input: a single relation field also decodes to the empty string rather than
to an absent value, and the fifth shows the consequence that reading such a
field afterwards throws a type-mismatch error instead of returning absent. -/
theorem c6_empty_string_decode :
    decodeRichValue mT MState.empty (.str ("")) none true ("TestTable") ("tags") =
      .ok (MState.empty, .arr []) ∧
    decodeRichValue mT MState.empty (.str ("")) (some ("RelatedTable")) true
      ("TestTable") ("relatedTableArray") = .ok (MState.empty, .arr []) ∧
    decodeRichValue mT MState.empty (.str ("")) none false ("TestTable") ("string") =
      .ok (MState.empty, .str ("")) ∧
    decodeRichValue mT MState.empty (.str ("")) (some ("RelatedTable")) false
      ("TestTable") ("relatedTable") = .ok (MState.empty, .str ("")) ∧
    getTrap mT c6St 0 ("relatedTable") =
      .error (.thrown ("Expected RelatedTable but got String")) :=
  ⟨by rfl, by rfl, by rfl, by rfl, by rfl⟩

/-- C4, counterexample: after writing `number := 5` past a snapshot and then
writing `boolean` back with its snapshot value `true`, the last write
succeeded, `getDirtyValues()` still holds the changed `number`, yet
`isDirty()` reports `false`, so `isDirty()` is not equivalent to
`getDirtyValues()` being non-empty after every write. -/
theorem c4_counterexample :
    (setField mT c4StD 0 ("boolean") (.bool true)).isOk = true ∧
    getDirtyValues (entityAt c4StE 0) = [(("number"), .int 5)] ∧
    isDirty (entityAt c4StE 0) = false :=
  ⟨by rfl, by rfl, by rfl⟩

/-- C5, counterexample: after snapshotting `tags = ["a", "b"]` and assigning
the proper prefix `["a"]`, the current value differs from the snapshot value
(element-wise by position, including length), yet the field is absent from
`getDirtyValues()` and the entity reports clean. -/
theorem c5_counterexample :
    specDiffers (fieldValue (entityAt c5StC 0) ("tags"))
      (originalValue (entityAt c5StC 0) ("tags")) = true ∧
    getDirtyValues (entityAt c5StC 0) = [] ∧
    isDirty (entityAt c5StC 0) = false :=
  ⟨by rfl, by rfl, by rfl⟩

/-- C7, counterexample: assigning an instance of a subclass of the declared
related type succeeds even though its runtime type differs from the declared
type, so the declared type is not matched exactly. -/
theorem c7_counterexample :
    (setField mT c7St 0 ("relatedTable") (.ref 1)).isOk = true ∧
    ((entityAt c7St 1).className == ("RelatedTable")) = false :=
  ⟨by rfl, by rfl⟩

/-- C8, counterexample: serialising an entity whose dirty relation field
references an entity without a row id raises no error of any kind; the cell
is produced with value `undefined`. -/
theorem c8_counterexample :
    fieldValue (entityAt c8StB 1) ("id") = .undef ∧
    parseCodaRow mT c8StB 0 [] = .ok [(("related_table_column_id"), .undef)] ∧
    encodeValue c8StB (.ref 1) = .undef :=
  ⟨by rfl, by rfl, by rfl⟩

/-- Unfolding of `==` on pairs of strings into component comparisons. -/
theorem prodBeq_eq (a b : String × String) : (a == b) = (a.1 == b.1 && a.2 == b.2) := rfl

/-- C1: identity invariant across two fetches. Over any table id `t`, row id
`r` and wire values `v1`, `v2`, parsing two row responses for the same
`(t, r)` in sequence returns the same entity both times (reference equality
of heap indices), the second parse merges the freshly decoded values into
that entity in place so its field reflects the second response's decoded
value, the entity is fetched and clean, and the identity cache maps `(t, r)`
to it — so every alias of the first result observes the second response's
values. The cache registration step of `_assign` is modelled from the spec. -/
theorem c1_identity_second_fetch (t r v1 v2 : String) (hr : r ≠ "") :
    (fetchTwice (mC1 t) ("C") { id := r, values := [(("cn"), .str v1)] }
        { id := r, values := [(("cn"), .str v2)] }).map
      (fun out => (out.1 == out.2.1, fieldValue (entityAt out.2.2 out.1) ("name"),
        (entityAt out.2.2 out.1).isFetched, isDirty (entityAt out.2.2 out.1),
        cacheLookup out.2.2 (t, r)))
    = .ok (true, .str (strDecode v2), true, false, some 0) := by
  have hrb : (r == "") = false := beq_eq_false_iff_ne.mpr hr
  simp [fetchTwice, parseDtoRow, buildParsedValues, mC1, findClass, tableIdOf, lookupWire,
    decodeRichValue, strDecode, cacheLookup, cacheInsert, updAssoc, lookupAssoc, tableAssign, attachMapper,
    assignValues, setField, setKV, lookupKV, fieldValue, entityAt, getEntity, updateEntity,
    newEntity, registerInCache, resetDirty, getValues, getDirtyValues, propDirty,
    hasOwnOriginal, originalValue, startsWithUnderscore, relOf, findField, jsEq, isDirty,
    MState.empty, idKey, hrb, List.find?, List.any, List.filter, wrapIf, origIndex, Except.map]

/-- C1 witness: the scenario at table `T`, row `r1`, with remote values
`Jane` then `Janet`. -/
theorem c1_identity_second_fetch_witness :
    (fetchTwice (mC1 ("T")) ("C") { id := "r1", values := [(("cn"), .str ("Jane"))] }
        { id := "r1", values := [(("cn"), .str ("Janet"))] }).map
      (fun out => (out.1 == out.2.1, fieldValue (entityAt out.2.2 out.1) ("name"),
        (entityAt out.2.2 out.1).isFetched, isDirty (entityAt out.2.2 out.1),
        cacheLookup out.2.2 (("T"), ("r1"))))
    = .ok (true, .str (strDecode ("Janet")), true, false, some 0) :=
  c1_identity_second_fetch ("T") ("r1") ("Jane") ("Janet") (by decide)

/-- C3: lazy relation resolution. In a state with a fetched holder entity
whose single relation field stores a registered placeholder and whose
multiple relation field stores two registered placeholders, with remote rows
available for both: reading the single relation field returns a resolution
promise; awaiting it yields that same entity, now fetched, with the remote
values merged in place; reading the field again afterwards returns the
entity synchronously with no promise; reading the relation-array field
returns one `Promise.all` covering both unresolved elements; awaiting it
yields the array of the same entities, every element now fetched; and
reading the array field afterwards returns the array synchronously. The
cache registration step of `_assign` is modelled from the spec. -/
theorem c3_lazy_resolution (rid1 rid2 w1 w2 : String) (h1 : rid1 ≠ "") (h2 : rid2 ≠ "")
    (hne : rid1 ≠ rid2) :
    getTrap mAR (c3St rid1 rid2) 0 ("rel") = .ok (.promiseOne 1) ∧
    ((getTrap mAR (c3St rid1 rid2) 0 ("rel")).bind fun rr =>
        awaitRead mAR (c3Remote rid1 rid2 w1 w2) (c3St rid1 rid2) rr).map
      (fun out => (out.2, (entityAt out.1 1).isFetched, (entityAt out.1 1).existsOnCoda,
        fieldValue (entityAt out.1 1) ("text"), fieldValue (entityAt out.1 0) ("rel"),
        isDirty (entityAt out.1 1)))
      = .ok (.ref 1, true, true, .str (strDecode w1), .ref 1, false) ∧
    ((getTrap mAR (c3St rid1 rid2) 0 ("rel")).bind fun rr =>
        (awaitRead mAR (c3Remote rid1 rid2 w1 w2) (c3St rid1 rid2) rr).bind fun out =>
          getTrap mAR out.1 0 ("rel")) = .ok (.val (.ref 1)) ∧
    getTrap mAR (c3St rid1 rid2) 0 ("rels") = .ok (.promiseAll [(1, true), (2, true)]) ∧
    ((getTrap mAR (c3St rid1 rid2) 0 ("rels")).bind fun rr =>
        awaitRead mAR (c3Remote rid1 rid2 w1 w2) (c3St rid1 rid2) rr).map
      (fun out => (out.2, (entityAt out.1 1).isFetched, (entityAt out.1 2).isFetched))
      = .ok (.arr [.ref 1, .ref 2], true, true) ∧
    ((getTrap mAR (c3St rid1 rid2) 0 ("rels")).bind fun rr =>
        (awaitRead mAR (c3Remote rid1 rid2 w1 w2) (c3St rid1 rid2) rr).bind fun out =>
          getTrap mAR out.1 0 ("rels")) = .ok (.val (.arr [.ref 1, .ref 2])) := by
  have hb1 : (rid1 == "") = false := beq_eq_false_iff_ne.mpr h1
  have hb2 : (rid2 == "") = false := beq_eq_false_iff_ne.mpr h2
  have hbn : (rid1 == rid2) = false := beq_eq_false_iff_ne.mpr hne
  have hbn2 : (rid2 == rid1) = false := beq_eq_false_iff_ne.mpr (Ne.symm hne)
  refine ⟨?_, ?_, ?_, ?_, ?_, ?_⟩ <;>
  simp [c3St, c3Holder, c3Placeholder, c3Remote, mAR, getTrap, getTrapArray, awaitRead,
    awaitOne, awaitAll, tablePull, mapperRefresh, mapperGet, remoteLookup, parseDtoRow,
    buildParsedValues, findClass, tableIdOf, lookupWire, decodeRichValue, strDecode,
    cacheLookup, cacheInsert, updAssoc, lookupAssoc, tableAssign, attachMapper, assignValues, setField,
    setKV, lookupKV, fieldValue, entityAt, getEntity, updateEntity, newEntity, registerInCache,
    resetDirty, getValues, getDirtyValues, propDirty, hasOwnOriginal, originalValue,
    startsWithUnderscore, relOf, findField, jsEq, isDirty, idKey, truthy, instanceOf,
    isSubclassOf, wrapIf, origIndex, List.find?, List.any, List.filter, Except.map,
    Except.bind, prodBeq_eq, hb1, hb2, hbn, hbn2, hne, Ne.symm hne]

/-- C3 witness: the scenario at row ids `r1`, `r2` with remote text values
`hello` and `world`. -/
theorem c3_lazy_resolution_witness :
    getTrap mAR (c3St ("r1") ("r2")) 0 ("rel") = .ok (.promiseOne 1) ∧
    ((getTrap mAR (c3St ("r1") ("r2")) 0 ("rel")).bind fun rr =>
        awaitRead mAR (c3Remote ("r1") ("r2") ("hello") ("world")) (c3St ("r1") ("r2")) rr).map
      (fun out => (out.2, (entityAt out.1 1).isFetched, (entityAt out.1 1).existsOnCoda,
        fieldValue (entityAt out.1 1) ("text"), fieldValue (entityAt out.1 0) ("rel"),
        isDirty (entityAt out.1 1)))
      = .ok (.ref 1, true, true, .str (strDecode ("hello")), .ref 1, false) ∧
    ((getTrap mAR (c3St ("r1") ("r2")) 0 ("rel")).bind fun rr =>
        (awaitRead mAR (c3Remote ("r1") ("r2") ("hello") ("world")) (c3St ("r1") ("r2")) rr).bind
          fun out => getTrap mAR out.1 0 ("rel")) = .ok (.val (.ref 1)) ∧
    getTrap mAR (c3St ("r1") ("r2")) 0 ("rels") = .ok (.promiseAll [(1, true), (2, true)]) ∧
    ((getTrap mAR (c3St ("r1") ("r2")) 0 ("rels")).bind fun rr =>
        awaitRead mAR (c3Remote ("r1") ("r2") ("hello") ("world")) (c3St ("r1") ("r2")) rr).map
      (fun out => (out.2, (entityAt out.1 1).isFetched, (entityAt out.1 2).isFetched))
      = .ok (.arr [.ref 1, .ref 2], true, true) ∧
    ((getTrap mAR (c3St ("r1") ("r2")) 0 ("rels")).bind fun rr =>
        (awaitRead mAR (c3Remote ("r1") ("r2") ("hello") ("world")) (c3St ("r1") ("r2")) rr).bind
          fun out => getTrap mAR out.1 0 ("rels")) = .ok (.val (.arr [.ref 1, .ref 2])) :=
  c3_lazy_resolution ("r1") ("r2") ("hello") ("world") (by decide) (by decide) (by decide)

/-! Association-list lemmas used by the general theorems below. -/

theorem anyFalse {a b : Type} (l : List (a × b)) (p : a × b → Bool) (h : l.any p = false) :
    ∀ kv, kv ∈ l → p kv = false := by
  intro kv hm
  rcases hx : p kv with _ | _
  · rfl
  · have : l.any p = true := List.any_eq_true.mpr ⟨kv, hm, hx⟩
    rw [h] at this
    exact absurd this Bool.false_ne_true

theorem find?_map_upd {a b : Type} [BEq a] [LawfulBEq a] (l : List (a × b)) (k : a) (v : b)
    (h : (l.any fun kv => kv.1 == k) = true) :
    List.find? (fun kv => kv.1 == k) (l.map fun kv => if kv.1 == k then (k, v) else kv) =
      some (k, v) := by
  induction l with
  | nil => simp at h
  | cons kv tl ih =>
    rw [List.map_cons]
    by_cases hk : (kv.1 == k) = true
    · rw [if_pos hk, List.find?_cons]
      simp
    · have hk' : (kv.1 == k) = false := Bool.eq_false_iff.mpr hk
      rw [if_neg (by simp [hk']), List.find?_cons, hk']
      apply ih
      simp only [List.any_cons, hk', Bool.false_or] at h
      exact h

theorem find?_map_upd_ne {a b : Type} [BEq a] [LawfulBEq a] (l : List (a × b)) (k k' : a) (v : b)
    (hkk : (k == k') = false) :
    List.find? (fun kv => kv.1 == k') (l.map fun kv => if kv.1 == k then (k, v) else kv) =
      List.find? (fun kv => kv.1 == k') l := by
  induction l with
  | nil => rfl
  | cons kv tl ih =>
    rw [List.map_cons]
    by_cases hk : (kv.1 == k) = true
    · have hkeq : kv.1 = k := eq_of_beq hk
      rw [if_pos hk, List.find?_cons, List.find?_cons]
      have h1 : ((k, v).1 == k') = false := hkk
      have h2 : (kv.1 == k') = false := by rw [hkeq]; exact hkk
      rw [h1, h2]
      exact ih
    · have hk' : (kv.1 == k) = false := Bool.eq_false_iff.mpr hk
      rw [if_neg (by simp [hk']), List.find?_cons, List.find?_cons]
      rcases hp : (kv.1 == k') with _ | _
      · exact ih
      · rfl

theorem find?_append_snoc {a b : Type} (l : List (a × b)) (kv0 : a × b) (p : a × b → Bool) :
    List.find? p (l ++ [kv0]) =
      match List.find? p l with
      | some kv => some kv
      | none => if p kv0 then some kv0 else none := by
  induction l with
  | nil =>
    rcases hp : p kv0 with _ | _
    · simp [List.find?, hp]
    · simp [List.find?, hp]
  | cons kv tl ih =>
    rw [List.cons_append, List.find?_cons, List.find?_cons]
    rcases hk : p kv with _ | _
    · exact ih
    · rfl

theorem lookupAssoc_updAssoc_self {a b : Type} [BEq a] [LawfulBEq a] (l : List (a × b)) (k : a) (v : b) :
    lookupAssoc (updAssoc l k v) k = some v := by
  unfold updAssoc lookupAssoc
  by_cases h : (l.any fun kv => kv.1 == k) = true
  · rw [if_pos h, find?_map_upd l k v h]
    rfl
  · have h' : (l.any fun kv => kv.1 == k) = false := Bool.eq_false_iff.mpr h
    have hnone : List.find? (fun kv => kv.1 == k) l = none := by
      rw [List.find?_eq_none]
      intro kv hm
      have hfalse := anyFalse l _ h' kv hm
      simp only [hfalse]
      exact Bool.false_ne_true
    rw [if_neg (by simp [h']), find?_append_snoc, hnone]
    simp

theorem lookupAssoc_updAssoc_ne {a b : Type} [BEq a] [LawfulBEq a] (l : List (a × b)) (k k' : a) (v : b)
    (h : (k' == k) = false) :
    lookupAssoc (updAssoc l k v) k' = lookupAssoc l k' := by
  have hkk : (k == k') = false :=
    beq_eq_false_iff_ne.mpr (Ne.symm (beq_eq_false_iff_ne.mp h))
  unfold updAssoc lookupAssoc
  by_cases hany : (l.any fun kv => kv.1 == k) = true
  · rw [if_pos hany, find?_map_upd_ne l k k' v hkk]
  · have h' : (l.any fun kv => kv.1 == k) = false := Bool.eq_false_iff.mpr hany
    rw [if_neg (by simp [h']), find?_append_snoc]
    have hh : (k == k') = false := hkk
    rcases hf : List.find? (fun kv => kv.1 == k') l with _ | kv
    · rw [hf]
      simp [hh]
    · rw [hf]

theorem mem_updAssoc_self {a b : Type} [BEq a] [LawfulBEq a] (l : List (a × b)) (k : a) (v : b) :
    (k, v) ∈ updAssoc l k v := by
  unfold updAssoc
  by_cases h : (l.any fun kv => kv.1 == k) = true
  · rcases List.any_eq_true.mp h with ⟨kv, hm, hk⟩
    rw [if_pos h]
    exact List.mem_map.mpr ⟨kv, hm, by simp [hk]⟩
  · have h' : (l.any fun kv => kv.1 == k) = false := Bool.eq_false_iff.mpr h
    rw [if_neg (by simp [h'])]
    exact List.mem_append_right _ (List.mem_singleton_self _)

theorem mem_updAssoc_elim {a b : Type} [BEq a] [LawfulBEq a] (l : List (a × b)) (k : a) (v : b) (kv : a × b)
    (h : kv ∈ updAssoc l k v) : kv = (k, v) ∨ kv ∈ l := by
  unfold updAssoc at h
  by_cases hany : (l.any fun kv => kv.1 == k) = true
  · rw [if_pos hany] at h
    rcases List.mem_map.mp h with ⟨kv0, hm, heq⟩
    by_cases hk : (kv0.1 == k) = true
    · left
      rw [if_pos hk] at heq
      exact heq.symm
    · right
      have hk' : (kv0.1 == k) = false := Bool.eq_false_iff.mpr hk
      rw [if_neg (by simp [hk'])] at heq
      rw [← heq]
      exact hm
  · have h' : (l.any fun kv => kv.1 == k) = false := Bool.eq_false_iff.mpr hany
    rw [if_neg (by simp [h'])] at h
    rcases List.mem_append.mp h with hm | hm
    · right; exact hm
    · left; exact List.mem_singleton.mp hm

theorem mem_updAssoc_key_eq {a b : Type} [BEq a] [LawfulBEq a] (l : List (a × b)) (k : a) (v : b) (kv : a × b)
    (h : kv ∈ updAssoc l k v) (hk : kv.1 = k) : kv = (k, v) := by
  unfold updAssoc at h
  by_cases hany : (l.any fun kv => kv.1 == k) = true
  · rw [if_pos hany] at h
    rcases List.mem_map.mp h with ⟨kv0, hm, heq⟩
    by_cases hk0 : (kv0.1 == k) = true
    · rw [if_pos hk0] at heq
      exact heq.symm
    · have hk0' : (kv0.1 == k) = false := Bool.eq_false_iff.mpr hk0
      rw [if_neg (by simp [hk0'])] at heq
      rw [heq] at hk0'
      rw [hk] at hk0'
      simp at hk0'
  · have h' : (l.any fun kv => kv.1 == k) = false := Bool.eq_false_iff.mpr hany
    rw [if_neg (by simp [h'])] at h
    rcases List.mem_append.mp h with hm | hm
    · have := anyFalse l _ h' kv hm
      rw [hk] at this
      simp at this
    · exact List.mem_singleton.mp hm

theorem keys_updAssoc_nodup {a b : Type} [BEq a] [LawfulBEq a] (l : List (a × b)) (k : a) (v : b)
    (h : (l.map Prod.fst).Nodup) : ((updAssoc l k v).map Prod.fst).Nodup := by
  unfold updAssoc
  by_cases hany : (l.any fun kv => kv.1 == k) = true
  · rw [if_pos hany]
    have hkeys : ((l.map fun kv => if kv.1 == k then (k, v) else kv).map Prod.fst) =
        l.map Prod.fst := by
      rw [List.map_map]
      apply List.map_congr_left
      intro kv _
      by_cases hk : (kv.1 == k) = true
      · simp [hk, (eq_of_beq hk).symm]
      · have hk' : (kv.1 == k) = false := Bool.eq_false_iff.mpr hk
        simp [hk']
    rw [hkeys]
    exact h
  · have h' : (l.any fun kv => kv.1 == k) = false := Bool.eq_false_iff.mpr hany
    rw [if_neg (by simp [h']), List.map_append]
    rw [List.nodup_append]
    refine ⟨h, List.nodup_singleton _, ?_⟩
    intro x hx
    simp only [List.map_cons, List.map_nil, List.mem_singleton]
    intro hxk
    rcases List.mem_map.mp hx with ⟨kv, hm, hfst⟩
    have := anyFalse l _ h' kv hm
    rw [hfst, hxk] at this
    simp at this

theorem lookupAssoc_of_mem_nodup {a b : Type} [BEq a] [LawfulBEq a] (l : List (a × b)) (k : a) (v : b)
    (hnd : (l.map Prod.fst).Nodup) (hm : (k, v) ∈ l) : lookupAssoc l k = some v := by
  induction l with
  | nil => simp at hm
  | cons kv tl ih =>
    rcases List.mem_cons.mp hm with h | h
    · unfold lookupAssoc
      rw [List.find?_cons]
      have : (kv.1 == k) = true := by rw [← h]; simp
      rw [this]
      simp [← h]
    · have hkne : (kv.1 == k) = false := by
        have hne : kv.1 ≠ k := by
          intro he
          have hmem : k ∈ tl.map Prod.fst := by
            have : (k, v).1 ∈ tl.map Prod.fst := List.mem_map.mpr ⟨(k, v), h, rfl⟩
            simpa using this
          simp only [List.map_cons, List.nodup_cons] at hnd
          exact hnd.1 (he ▸ hmem)
        exact beq_eq_false_iff_ne.mpr hne
      have hnd' : (tl.map Prod.fst).Nodup := by
        simp only [List.map_cons, List.nodup_cons] at hnd
        exact hnd.2
      unfold lookupAssoc
      rw [List.find?_cons, hkne]
      exact ih hnd' h

theorem lookupAssoc_mem {a b : Type} [BEq a] [LawfulBEq a] (l : List (a × b)) (k : a) (v : b)
    (h : lookupAssoc l k = some v) : (k, v) ∈ l := by
  unfold lookupAssoc at h
  rcases hf : List.find? (fun kv => kv.1 == k) l with _ | kv
  · rw [hf] at h; simp at h
  · rw [hf] at h
    simp only [Option.map_some'] at h
    have hm := List.mem_of_find?_eq_some hf
    have hp := List.find?_some hf
    have hk : kv.1 = k := by simpa using hp
    have hkv : kv = (k, v) := by
      rcases kv with ⟨k0, v0⟩
      have hk' : k0 = k := hk
      have hv' : v0 = v := by simpa using h
      rw [hk', hv']
    exact hkv ▸ hm


/-! State and dirty-tracking lemmas. -/

theorem getEntity_updateEntity_self (st : MState) (e : Nat) (f : Entity → Entity)
    (h : e < st.heap.length) :
    getEntity (updateEntity st e f) e = some (f (entityAt st e)) := by
  simp [getEntity, updateEntity, List.getElem?_set_self h]

theorem getEntity_updateEntity_ne (st : MState) (e e' : Nat) (f : Entity → Entity)
    (h : e' ≠ e) :
    getEntity (updateEntity st e f) e' = getEntity st e' := by
  simp [getEntity, updateEntity, List.getElem?_set_ne (Ne.symm h)]

theorem updateEntity_length (st : MState) (e : Nat) (f : Entity → Entity) :
    (updateEntity st e f).heap.length = st.heap.length := by
  simp [updateEntity]

theorem updateEntity_cacheEq (st : MState) (e : Nat) (f : Entity → Entity) :
    (updateEntity st e f).cache = st.cache := rfl

theorem cacheInsert_heap (st : MState) (k : String × String) (n : Nat) :
    (cacheInsert st k n).heap = st.heap := rfl

theorem registerInCache_heap (meta : Meta) (st : MState) (e : Nat) :
    (registerInCache meta st e).heap = st.heap := by
  unfold registerInCache
  repeat' split
  all_goals rfl

theorem jsEq_self (v : Value) (h : Value.notArr v = true) : jsEq v v = true := by
  cases v <;> simp_all [jsEq, Value.notArr]

theorem nodupKeys_filter (l : List (String × Value)) (p : String × Value → Bool)
    (h : nodupKeys l) : nodupKeys (l.filter p) := by
  unfold nodupKeys at h ⊢
  exact List.Nodup.sublist (List.Sublist.map Prod.fst (List.filter_sublist l)) h

theorem getValues_resetDirty (e : Entity) : getValues (resetDirty e) = getValues e := rfl

theorem nodupKeys_getValues (e : Entity) (h : nodupKeys e.fields) :
    nodupKeys (getValues e) := nodupKeys_filter _ _ h

theorem getDirtyValues_resetDirty (e : Entity) (hnd : nodupKeys e.fields)
    (hflat : ∀ kv ∈ e.fields, Value.flat kv.2 = true) :
    getDirtyValues (resetDirty e) = [] := by
  unfold getDirtyValues
  rw [List.filter_eq_nil_iff]
  intro kv hm
  rw [getValues_resetDirty] at hm
  have hmf : kv ∈ e.fields := List.mem_filter.mp hm |>.1
  have hown : hasOwnOriginal (resetDirty e) kv.1 = true := by
    unfold hasOwnOriginal resetDirty
    exact List.any_eq_true.mpr ⟨kv, hm, by simp⟩
  have horig : originalValue (resetDirty e) kv.1 = kv.2 := by
    unfold originalValue resetDirty lookupKV
    have : lookupAssoc (getValues e) kv.1 = some kv.2 := by
      apply lookupAssoc_of_mem_nodup _ _ _ (nodupKeys_getValues e hnd)
      simpa using hm
    simp [this]
  simp only [propDirty, hown, Bool.not_true, Bool.false_eq_true, if_false, horig]
  rcases hv : kv.2 with _ | _ | s | n | bb | r | elems
  · simp [jsEq]
  · simp [jsEq]
  · simp [jsEq]
  · simp [jsEq]
  · simp [jsEq]
  · simp [jsEq]
  · simp only [Bool.not_eq_true]
    rw [List.any_eq_false]
    intro i hi
    rw [List.mem_range] at hi
    have hmem : elems.getD i .undef ∈ elems := by
      rw [List.getD_eq_getElem?_getD, List.getElem?_eq_getElem hi]
      exact List.getElem_mem _
    have hfl : Value.flat kv.2 = true := hflat kv hmf
    rw [hv] at hfl
    have hna : Value.notArr (elems.getD i .undef) = true := by
      unfold Value.flat at hfl
      exact List.all_eq_true.mp hfl _ hmem
    simp only [origIndex]
    rw [jsEq_self _ hna]
    simp



/-! Characterisation of the embedded setter and of `_assign`. -/

theorem checkInstance_ok_iff (meta : Meta) (st : MState) (v : Value) (rel : String) :
    (checkInstance meta st v rel).isOk = true ↔ isInstanceValue meta st v rel = true := by
  unfold checkInstance isInstanceValue
  cases v with
  | ref r =>
    rcases h : getEntity st r with _ | ent
    · simp [h, Except.isOk, Except.toBool]
    · rcases hio : instanceOf meta ent.className rel with _ | _ <;> simp [h, hio, Except.isOk, Except.toBool]
  | undef => simp [ctorName, Except.isOk, Except.toBool]
  | null => simp [ctorName, Except.isOk, Except.toBool]
  | str s => simp [ctorName, Except.isOk, Except.toBool]
  | int n => simp [ctorName, Except.isOk, Except.toBool]
  | bool bb => simp [ctorName, Except.isOk, Except.toBool]
  | arr elems => simp [ctorName, Except.isOk, Except.toBool]

theorem checkInstanceList_ok_iff (meta : Meta) (st : MState) (rel : String)
    (elems : List Value) :
    (checkInstanceList meta st rel elems).isOk = true ↔
      ∀ x ∈ elems, isInstanceValue meta st x rel = true := by
  induction elems with
  | nil => simp [checkInstanceList, Except.isOk, Except.toBool]
  | cons x rest ih =>
    unfold checkInstanceList
    rcases hc : checkInstance meta st x rel with err | u
    · have hx : isInstanceValue meta st x rel = false := by
        have hiff := checkInstance_ok_iff meta st x rel
        rw [hc] at hiff
        simp [Except.isOk, Except.toBool] at hiff
        exact hiff
      simp [Except.isOk, Except.toBool, hx]
    · have hx : isInstanceValue meta st x rel = true := by
        have hiff := checkInstance_ok_iff meta st x rel
        rw [hc] at hiff
        simpa [Except.isOk, Except.toBool] using hiff
      simp [hx, ih]

theorem setField_norel_eq (meta : Meta) (st : MState) (e : Nat) (p : String) (v : Value)
    (hp : startsWithUnderscore p = false)
    (hrel : relOf meta (entityAt st e).className p = none) :
    setField meta st e p v = .ok (updateEntity st e fun _ =>
      { entityAt st e with
        fields := setKV (entityAt st e).fields p v
        isDirtyFlag :=
          if (getDirtyValues
              { entityAt st e with fields := setKV (entityAt st e).fields p v }).isEmpty then
            false
          else propDirty (entityAt st e) p v }) := by
  unfold setField
  simp [hp, hrel]

theorem setField_rel_single_eq (meta : Meta) (st : MState) (e : Nat) (p : String) (v : Value)
    (rel : String) (hp : startsWithUnderscore p = false)
    (hrel : relOf meta (entityAt st e).className p = some rel)
    (hna : Value.notArr v = true) (ht : truthy v = true) (u : Unit)
    (hchk : checkInstance meta st v rel = .ok u) :
    setField meta st e p v = .ok (updateEntity st e fun _ =>
      { entityAt st e with
        fields := setKV (entityAt st e).fields p v
        isDirtyFlag :=
          if (getDirtyValues
              { entityAt st e with fields := setKV (entityAt st e).fields p v }).isEmpty then
            false
          else propDirty (entityAt st e) p v }) := by
  unfold setField
  cases v <;> simp_all [Value.notArr]

theorem setField_rel_falsy_ok (meta : Meta) (st : MState) (e : Nat) (p : String) (v : Value)
    (rel : String) (hp : startsWithUnderscore p = false)
    (hrel : relOf meta (entityAt st e).className p = some rel)
    (ht : truthy v = false) :
    setField meta st e p v = .ok (updateEntity st e fun _ =>
      { entityAt st e with
        fields := setKV (entityAt st e).fields p v
        isDirtyFlag :=
          if (getDirtyValues
              { entityAt st e with fields := setKV (entityAt st e).fields p v }).isEmpty then
            false
          else propDirty (entityAt st e) p v }) := by
  unfold setField
  cases v <;> simp_all [truthy]

theorem setField_rel_ref_mismatch (meta : Meta) (st : MState) (e : Nat) (p : String)
    (r : Nat) (rel : String) (rent : Entity) (hp : startsWithUnderscore p = false)
    (hrel : relOf meta (entityAt st e).className p = some rel)
    (hge : getEntity st r = some rent)
    (hni : instanceOf meta rent.className rel = false) :
    setField meta st e p (.ref r) =
      .error (.thrown ("Expected " ++ rel ++ " but got " ++ rent.className)) := by
  unfold setField checkInstance
  simp [hp, hrel, truthy, hge, hni]

theorem setField_error_elim (meta : Meta) (st : MState) (e : Nat) (p : String) (v : Value)
    (err : JsErr) (h : setField meta st e p v = .error err) :
    ∃ rel, startsWithUnderscore p = false ∧
      relOf meta (entityAt st e).className p = some rel ∧
      ((∃ elems, v = .arr elems ∧ ¬∀ x ∈ elems, isInstanceValue meta st x rel = true) ∨
        (Value.notArr v = true ∧ truthy v = true ∧ isInstanceValue meta st v rel = false)) := by
  unfold setField at h
  rcases hu : startsWithUnderscore p with _ | _
  · rw [hu] at h
    simp only [Bool.false_eq_true, if_false] at h
    rcases hr : relOf meta (entityAt st e).className p with _ | rel
    · rw [hr] at h
      simp at h
    · rw [hr] at h
      refine ⟨rel, rfl, rfl, ?_⟩
      rcases v with _ | _ | s | n | bb | rr | elems
      case undef => simp [truthy] at h
      case null => simp [truthy] at h
      case arr =>
        left
        refine ⟨elems, rfl, ?_⟩
        intro hall
        have hok := (checkInstanceList_ok_iff meta st rel elems).mpr hall
        rcases hc : checkInstanceList meta st rel elems with e2 | u
        · rw [hc] at hok
          simp [Except.isOk, Except.toBool] at hok
        · simp only at h
          rw [hc] at h
          simp at h
      case str =>
        right
        rcases ht : truthy (Value.str s) with _ | _
        · simp only at h
          rw [ht] at h
          simp at h
        · simp only at h
          rw [ht] at h
          simp only [if_true] at h
          rcases hc : checkInstance meta st (Value.str s) rel with e2 | u
          · have hiff := checkInstance_ok_iff meta st (Value.str s) rel
            rw [hc] at hiff
            simp [Except.isOk, Except.toBool] at hiff
            exact ⟨rfl, rfl, hiff⟩
          · rw [hc] at h
            simp at h
      case int =>
        right
        rcases ht : truthy (Value.int n) with _ | _
        · simp only at h
          rw [ht] at h
          simp at h
        · simp only at h
          rw [ht] at h
          simp only [if_true] at h
          rcases hc : checkInstance meta st (Value.int n) rel with e2 | u
          · have hiff := checkInstance_ok_iff meta st (Value.int n) rel
            rw [hc] at hiff
            simp [Except.isOk, Except.toBool] at hiff
            exact ⟨rfl, rfl, hiff⟩
          · rw [hc] at h
            simp at h
      case bool =>
        right
        rcases ht : truthy (Value.bool bb) with _ | _
        · simp only at h
          rw [ht] at h
          simp at h
        · simp only at h
          rw [ht] at h
          simp only [if_true] at h
          rcases hc : checkInstance meta st (Value.bool bb) rel with e2 | u
          · have hiff := checkInstance_ok_iff meta st (Value.bool bb) rel
            rw [hc] at hiff
            simp [Except.isOk, Except.toBool] at hiff
            exact ⟨rfl, rfl, hiff⟩
          · rw [hc] at h
            simp at h
      case ref =>
        right
        rcases hc : checkInstance meta st (Value.ref rr) rel with e2 | u
        · have hiff := checkInstance_ok_iff meta st (Value.ref rr) rel
          rw [hc] at hiff
          simp [Except.isOk, Except.toBool] at hiff
          exact ⟨rfl, rfl, hiff⟩
        · simp only [truthy, if_true] at h
          rw [hc] at h
          simp at h
  · rw [hu] at h
    simp at h

theorem entityAt_updateEntity_self (st : MState) (e : Nat) (f : Entity → Entity)
    (h : e < st.heap.length) :
    entityAt (updateEntity st e f) e = f (entityAt st e) := by
  unfold entityAt
  rw [getEntity_updateEntity_self st e f h]
  rfl

theorem updateEntity_heap (st : MState) (e : Nat) (f : Entity → Entity) :
    (updateEntity st e f).heap = st.heap.set e (f (entityAt st e)) := rfl

theorem mstate_eq_of (s1 s2 : MState) (hh : s1.heap = s2.heap)
    (hc : s1.cache = s2.cache) : s1 = s2 := by
  cases s1
  cases s2
  cases hh
  cases hc
  rfl

/-- The entity produced by `_assign` with a lone `id` value: the `id` is
stored, the snapshot equals the stored values, the dirty flag is cleared, the
mapper is attached and the provided state flags are merged. -/
def assignedEntity (ent : Entity) (sArg : StateArg) (v : Value) : Entity :=
  { className := ent.className
  , fields := setKV ent.fields idKey v
  , original := (setKV ent.fields idKey v).filter fun kv => !(startsWithUnderscore kv.1)
  , isDirtyFlag := false
  , existsOnCoda := sArg.existsOnCoda.getD ent.existsOnCoda
  , isFetched := sArg.isFetched.getD ent.isFetched
  , hasMapper := true }

theorem tableAssign_id_eq (meta : Meta) (st : MState) (e : Nat) (sArg : StateArg) (v : Value)
    (he : e < st.heap.length)
    (hrel : relOf meta (entityAt st e).className idKey = none) :
    tableAssign meta st e sArg [(idKey, v)] =
      .ok (registerInCache meta
        { heap := st.heap.set e (assignedEntity (entityAt st e) sArg v)
        , cache := st.cache } e) := by
  have hb1 : e < (updateEntity st e (attachMapper sArg)).heap.length := by
    rw [updateEntity_length]
    exact he
  have he1 : entityAt (updateEntity st e (attachMapper sArg)) e =
      attachMapper sArg (entityAt st e) :=
    entityAt_updateEntity_self st e (attachMapper sArg) he
  have hrel1 : relOf meta
      (entityAt (updateEntity st e (attachMapper sArg)) e).className idKey = none := by
    rw [he1]
    exact hrel
  have hset := setField_norel_eq meta (updateEntity st e (attachMapper sArg)) e idKey v
    (by rfl) hrel1
  unfold tableAssign
  simp only [assignValues, hset]
  congr 1
  congr 1
  apply mstate_eq_of
  · simp only [updateEntity_heap]
    rw [entityAt_updateEntity_self _ e _ hb1]
    rw [he1]
    simp only [List.set_set]
    rfl
  · rfl

theorem fieldValue_assignedEntity_id (ent : Entity) (sArg : StateArg) (v : Value) :
    fieldValue (assignedEntity ent sArg v) idKey = v := by
  unfold fieldValue assignedEntity setKV lookupKV
  rw [lookupAssoc_updAssoc_self]
  rfl

theorem registerInCache_hit (meta : Meta) (st : MState) (e : Nat) (ent : Entity)
    (t rid : String) (hge : getEntity st e = some ent)
    (ht : tableIdOf meta ent.className = some t)
    (hid : fieldValue ent idKey = .str rid)
    (hr : (rid == "") = false) :
    registerInCache meta st e = cacheInsert st (t, rid) e := by
  unfold registerInCache
  simp only [hge, ht, hid]
  simp [hr]

theorem registerInCache_skip_nonstr (meta : Meta) (st : MState) (e : Nat) (ent : Entity)
    (hge : getEntity st e = some ent)
    (hid : ∀ s, fieldValue ent idKey ≠ .str s) :
    registerInCache meta st e = st := by
  unfold registerInCache
  simp only [hge]
  rcases hti : tableIdOf meta ent.className with _ | t
  · rcases hfv : fieldValue ent idKey <;> simp [hti, hfv]
  · rcases hfv : fieldValue ent idKey with _ | _ | s | _ | _ | _ | _ <;>
      simp [hti, hfv]
    exact absurd hfv (hid s)

theorem registerInCache_skip_notable (meta : Meta) (st : MState) (e : Nat) (ent : Entity)
    (hge : getEntity st e = some ent)
    (hti : tableIdOf meta ent.className = none) :
    registerInCache meta st e = st := by
  unfold registerInCache
  simp only [hge]
  rcases hfv : fieldValue ent idKey <;> simp [hti, hfv]

theorem registerInCache_cache_sub (meta : Meta) (st : MState) (e : Nat) (k : String × String) :
    cacheLookup (registerInCache meta st e) k = some e ∨
      cacheLookup (registerInCache meta st e) k = cacheLookup st k := by
  unfold registerInCache
  rcases hge : getEntity st e with _ | ent
  · right
    rfl
  · simp only
    rcases hti : tableIdOf meta ent.className with _ | t
    · rcases hfv : fieldValue ent idKey <;> simp only [hti, hfv] <;> right <;> trivial
    · rcases hfv : fieldValue ent idKey with _ | _ | s | _ | _ | _ | _
      case str =>
        simp only [hti, hfv]
        rcases hrs : s == "" with _ | _
        · simp only [hrs, Bool.false_eq_true, if_false]
          rcases hk : k == (t, s) with _ | _
          · right
            unfold cacheLookup cacheInsert
            simp only
            rw [lookupAssoc_updAssoc_ne]
            exact hk
          · left
            have hkk : k = (t, s) := by simpa using hk
            rw [hkk]
            unfold cacheLookup cacheInsert
            simp only
            rw [lookupAssoc_updAssoc_self]
        · simp only [hrs, if_true]
          right
          trivial
      all_goals simp only [hti, hfv]
      all_goals right
      all_goals trivial

theorem getDirtyValues_setFlag (e : Entity) (b : Bool) :
    getDirtyValues { e with isDirtyFlag := b } = getDirtyValues e := rfl

/-- C4: corrected. After a successful write of a non-underscore property `p`
with value `v`, the dirty flag is not the claimed test of `getDirtyValues()`
being non-empty: it equals the conjunction of that test with the dirtiness of
the written property alone, so the flag can read `false` while
`getDirtyValues()` is still non-empty (the staleness exhibited by the
counterexample). -/
theorem c4_dirty_flag_last_write (meta : Meta) (st : MState) (e : Nat) (p : String)
    (v : Value) (st' : MState) (he : e < st.heap.length)
    (hp : startsWithUnderscore p = false)
    (h : setField meta st e p v = .ok st') :
    isDirty (entityAt st' e) =
      (!(getDirtyValues (entityAt st' e)).isEmpty && propDirty (entityAt st e) p v) := by
  unfold setField at h
  simp only [hp, Bool.false_eq_true, if_false] at h
  split at h
  · exact absurd h (by simp)
  · have h2 : st' = updateEntity st e fun _ =>
        { entityAt st e with
          fields := setKV (entityAt st e).fields p v
          isDirtyFlag :=
            if (getDirtyValues
                { entityAt st e with fields := setKV (entityAt st e).fields p v }).isEmpty then
              false
            else propDirty (entityAt st e) p v } := by
      injection h with h3
      rw [h3]
    rw [h2, entityAt_updateEntity_self _ _ _ he]
    show (if (getDirtyValues
          { entityAt st e with fields := setKV (entityAt st e).fields p v }).isEmpty then
        false
      else propDirty (entityAt st e) p v) =
      (!(getDirtyValues
          { entityAt st e with fields := setKV (entityAt st e).fields p v }).isEmpty &&
        propDirty (entityAt st e) p v)
    rcases hde : (getDirtyValues
        { entityAt st e with fields := setKV (entityAt st e).fields p v }).isEmpty with _ | _
    · simp
    · simp

/-- C5: corrected. A non-underscore field present on the entity is in
`getDirtyValues()` exactly when its key is absent from the snapshot, or its
current value is an array some index of which — an index of the current array
only, which is the divergence from the claim exhibited by the counterexample —
differs strictly from the snapshot element at that index, or it is a
non-array value differing strictly from its snapshot value. -/
theorem c5_dirty_membership (e : Entity) (p : String) (v : Value)
    (hmem : lookupKV e.fields p = some v)
    (hp : startsWithUnderscore p = false) :
    ((p, v) ∈ getDirtyValues e ↔
      (hasOwnOriginal e p = false ∨
        (∃ elems, v = .arr elems ∧
          ∃ i, i < elems.length ∧
            jsEq (elems.getD i .undef) (origIndex (originalValue e p) i) = false) ∨
        (Value.notArr v = true ∧ jsEq v (originalValue e p) = false))) := by
  have hmemf : (p, v) ∈ e.fields := lookupAssoc_mem e.fields p v hmem
  unfold getDirtyValues getValues
  rw [List.mem_filter, List.mem_filter]
  have hlhs : ((p, v) ∈ e.fields ∧ (!startsWithUnderscore (p, v).1) = true) ∧
      propDirty e (p, v).1 (p, v).2 = true ↔ propDirty e p v = true := by
    simp [hmemf, hp]
  rw [hlhs]
  unfold propDirty
  rcases hown : hasOwnOriginal e p with _ | _
  · simp
  · simp only [hown, Bool.not_true, Bool.false_eq_true, if_false]
    cases v with
    | arr elems =>
      simp only [List.any_eq_true, List.mem_range, Bool.not_eq_true', Value.notArr]
      constructor
      · rintro ⟨i, hi, hne⟩
        exact Or.inr (Or.inl ⟨elems, rfl, i, hi, hne⟩)
      · rintro (habs | ⟨elems2, he2, i, hi, hne⟩ | ⟨habs, _⟩)
        · simp at habs
        · have h5 : elems = elems2 := by
            injection he2
          exact ⟨i, h5 ▸ hi, by rw [h5]; exact hne⟩
        · simp [Value.notArr] at habs
    | undef =>
      simp [Value.notArr, Bool.not_eq_true']
    | null =>
      simp [Value.notArr, Bool.not_eq_true']
    | str s =>
      simp [Value.notArr, Bool.not_eq_true']
    | int n =>
      simp [Value.notArr, Bool.not_eq_true']
    | bool bb =>
      simp [Value.notArr, Bool.not_eq_true']
    | ref r =>
      simp [Value.notArr, Bool.not_eq_true']

theorem setField_falsy_ok (meta : Meta) (st : MState) (e : Nat) (p : String) (v : Value)
    (ht : truthy v = false) :
    (setField meta st e p v).isOk = true := by
  unfold setField
  rcases hu : startsWithUnderscore p with _ | _
  · rcases hr : relOf meta (entityAt st e).className p with _ | rel
    · simp [hr, Except.isOk, Except.toBool]
    · cases v <;> simp_all [truthy, Except.isOk, Except.toBool]
  · simp [Except.isOk, Except.toBool]

theorem setField_rel_ok_iff (meta : Meta) (st : MState) (e : Nat) (p : String) (v : Value)
    (rel : String) (hp : startsWithUnderscore p = false)
    (hrel : relOf meta (entityAt st e).className p = some rel) :
    (setField meta st e p v).isOk = true ↔
      ((∀ elems, v = .arr elems → ∀ x ∈ elems, isInstanceValue meta st x rel = true) ∧
        (Value.notArr v = true → truthy v = true → isInstanceValue meta st v rel = true)) := by
  unfold setField
  simp only [hp, Bool.false_eq_true, if_false, hrel]
  cases v with
  | arr elems =>
    rcases hc : checkInstanceList meta st rel elems with err | u
    all_goals
      have hiff := checkInstanceList_ok_iff meta st rel elems
      rw [hc] at hiff
      simp [Except.isOk, Except.toBool] at hiff
    · simp [hc, Except.isOk, Except.toBool, Value.notArr]
      rcases hiff with ⟨y, hy, hyf⟩
      exact ⟨y, hy, hyf⟩
    · simp [hc, Except.isOk, Except.toBool, Value.notArr]
      exact hiff
  | undef => simp [truthy, Except.isOk, Except.toBool, Value.notArr]
  | null => simp [truthy, Except.isOk, Except.toBool, Value.notArr]
  | str s =>
    rcases ht : truthy (Value.str s) with _ | _
    · simp [ht, Except.isOk, Except.toBool, Value.notArr]
    · rcases hc : checkInstance meta st (Value.str s) rel with err | u
      all_goals
        have hiff := checkInstance_ok_iff meta st (Value.str s) rel
        rw [hc] at hiff
        simp [Except.isOk, Except.toBool] at hiff
      · simp [ht, hc, Except.isOk, Except.toBool, Value.notArr, hiff]
      · simp [ht, hc, Except.isOk, Except.toBool, Value.notArr, hiff]
  | int n =>
    rcases ht : truthy (Value.int n) with _ | _
    · simp [ht, Except.isOk, Except.toBool, Value.notArr]
    · rcases hc : checkInstance meta st (Value.int n) rel with err | u
      all_goals
        have hiff := checkInstance_ok_iff meta st (Value.int n) rel
        rw [hc] at hiff
        simp [Except.isOk, Except.toBool] at hiff
      · simp [ht, hc, Except.isOk, Except.toBool, Value.notArr, hiff]
      · simp [ht, hc, Except.isOk, Except.toBool, Value.notArr, hiff]
  | bool bb =>
    rcases ht : truthy (Value.bool bb) with _ | _
    · simp [ht, Except.isOk, Except.toBool, Value.notArr]
    · rcases hc : checkInstance meta st (Value.bool bb) rel with err | u
      all_goals
        have hiff := checkInstance_ok_iff meta st (Value.bool bb) rel
        rw [hc] at hiff
        simp [Except.isOk, Except.toBool] at hiff
      · simp [ht, hc, Except.isOk, Except.toBool, Value.notArr, hiff]
      · simp [ht, hc, Except.isOk, Except.toBool, Value.notArr, hiff]
  | ref r =>
    rcases hc : checkInstance meta st (Value.ref r) rel with err | u
    all_goals
      have hiff := checkInstance_ok_iff meta st (Value.ref r) rel
      rw [hc] at hiff
      simp [Except.isOk, Except.toBool] at hiff
    · simp [truthy, hc, Except.isOk, Except.toBool, Value.notArr, hiff]
    · simp [truthy, hc, Except.isOk, Except.toBool, Value.notArr, hiff]

theorem encodeValue_go_map (st : MState) (l : List Value) :
    encodeValue.go st l = l.map fun x => encodeValue st x := by
  induction l with
  | nil => rfl
  | cons x rest ih => simp [encodeValue.go, ih]

/-- C7: corrected. On a declared relation field, the proxy setter accepts a
write exactly when every element of an assigned array — or the assigned
non-array value itself, when truthy — is an instance of the declared related
class in the `instanceof` sense (subclasses included, not an exact type
match), and a live reference to an entity outside that class fails with the
thrown error naming the expected and the actual class. -/
theorem c7_relation_write_validation (meta : Meta) (st : MState) (e : Nat) (p : String)
    (v : Value) (rel : String)
    (hp : startsWithUnderscore p = false)
    (hrel : relOf meta (entityAt st e).className p = some rel) :
    ((setField meta st e p v).isOk = true ↔
      ((∀ elems, v = .arr elems → ∀ x ∈ elems, isInstanceValue meta st x rel = true) ∧
        (Value.notArr v = true → truthy v = true →
          isInstanceValue meta st v rel = true))) ∧
    (∀ r rent, v = .ref r → getEntity st r = some rent →
        instanceOf meta rent.className rel = false →
        setField meta st e p v =
          .error (.thrown ("Expected " ++ rel ++ " but got " ++ rent.className))) := by
  refine ⟨setField_rel_ok_iff meta st e p v rel hp hrel, ?_⟩
  rintro r rent rfl hge hni
  exact setField_rel_ref_mismatch meta st e p r rel rent hp hrel hge hni

theorem c7_relation_write_validation_witness :
    ((setField mT fixBase 0 ("relatedTable") (.ref 1)).isOk = true ↔
      ((∀ elems, Value.ref 1 = .arr elems →
          ∀ x ∈ elems, isInstanceValue mT fixBase x ("RelatedTable") = true) ∧
        (Value.notArr (.ref 1) = true → truthy (.ref 1) = true →
          isInstanceValue mT fixBase (.ref 1) ("RelatedTable") = true))) ∧
    (∀ r rent, Value.ref 1 = .ref r → getEntity fixBase r = some rent →
        instanceOf mT rent.className ("RelatedTable") = false →
        setField mT fixBase 0 ("relatedTable") (.ref 1) =
          .error (.thrown ("Expected " ++ "RelatedTable" ++ " but got " ++
            rent.className))) :=
  c7_relation_write_validation mT fixBase 0 ("relatedTable") (.ref 1) ("RelatedTable")
    (by rfl) (by rfl)

/-- C8: corrected. `encodeValue` never raises: a live entity reference encodes
to the referenced entity's `id` property value — which is `undefined` when
that entity has no id yet, rather than an `UnresolvedReference` failure, the
divergence exhibited by the counterexample — arrays encode element-wise and
any other value passes through unchanged. -/
theorem c8_encode_total (st : MState) (v : Value) :
    (∀ r ent, v = .ref r → getEntity st r = some ent →
        encodeValue st v = fieldValue ent idKey) ∧
    (∀ elems, v = .arr elems →
        encodeValue st v = .arr (elems.map fun x => encodeValue st x)) ∧
    (Value.notArr v = true → (∀ r, v ≠ .ref r) → encodeValue st v = v) := by
  refine ⟨?_, ?_, ?_⟩
  · rintro r ent rfl hge
    unfold encodeValue
    rw [hge]
  · rintro elems rfl
    simp [encodeValue, encodeValue_go_map]
  · intro hna hnr
    cases v with
    | undef => rfl
    | null => rfl
    | str s => rfl
    | int n => rfl
    | bool bb => rfl
    | ref r => exact absurd rfl (hnr r)
    | arr elems => simp [Value.notArr] at hna

theorem c8_encode_total_witness :
    encodeValue fixBase (.ref 1) = fieldValue (entityAt fixBase 1) idKey :=
  (c8_encode_total fixBase (.ref 1)).1 1 (entityAt fixBase 1) (by rfl) (by rfl)

/-- C10: confirmed. A falsy assigned value always passes the proxy setter
without relation-type validation, and a type error arises only for a truthy
non-array value that is not an instance of the declared relation, or an array
with an element that is not such an instance; so un-assigning a relation
field by writing `undefined` never throws. -/
theorem c10_falsy_relation_bypass (meta : Meta) (st : MState) (e : Nat) (p : String)
    (v : Value) (err : JsErr) :
    (truthy v = false → (setField meta st e p v).isOk = true) ∧
    (setField meta st e p v = .error err →
      ∃ rel, startsWithUnderscore p = false ∧
        relOf meta (entityAt st e).className p = some rel ∧
        ((∃ elems, v = .arr elems ∧ ¬∀ x ∈ elems, isInstanceValue meta st x rel = true) ∨
          (Value.notArr v = true ∧ truthy v = true ∧
            isInstanceValue meta st v rel = false))) :=
  ⟨fun ht => setField_falsy_ok meta st e p v ht,
   fun h => setField_error_elim meta st e p v err h⟩

theorem c10_falsy_relation_bypass_witness :
    (setField mT fixBase 0 ("relatedTable") Value.undef).isOk = true :=
  (c10_falsy_relation_bypass mT fixBase 0 ("relatedTable") Value.undef JsErr.typeErr).1
    (by rfl)

theorem c4_dirty_flag_last_write_witness :
    isDirty (entityAt c4StD 0) =
      (!(getDirtyValues (entityAt c4StD 0)).isEmpty &&
        propDirty (entityAt c4StC 0) ("number") (.int 5)) :=
  c4_dirty_flag_last_write mT c4StC 0 ("number") (.int 5) c4StD (by decide) (by rfl)
    (by rfl)

theorem c5_dirty_membership_witness :
    (("tags", Value.arr [.str ("a")]) ∈ getDirtyValues (entityAt c5StC 0) ↔
      (hasOwnOriginal (entityAt c5StC 0) ("tags") = false ∨
        (∃ elems, Value.arr [.str ("a")] = .arr elems ∧
          ∃ i, i < elems.length ∧
            jsEq (elems.getD i .undef)
              (origIndex (originalValue (entityAt c5StC 0) ("tags")) i) = false) ∨
        (Value.notArr (Value.arr [.str ("a")]) = true ∧
          jsEq (Value.arr [.str ("a")])
            (originalValue (entityAt c5StC 0) ("tags")) = false))) :=
  c5_dirty_membership (entityAt c5StC 0) ("tags") (Value.arr [.str ("a")])
    (by rfl) (by rfl)

/-- C2: confirmed (the registration step of placeholder construction is
modelled from the spec, see `registerInCache`). Decoding a structured relation
reference whose key is already cached returns the cached entity with the
state entirely unchanged — so a fetched entity is never downgraded — and on a
cache miss a fresh placeholder of the declared related class is appended to
the heap, carries the foreign row id with `existsOnCoda` set and `isFetched`
clear, is registered in the cache under the foreign key, and nothing else in
the state changes. -/
theorem c2_placeholder_cache_reuse (meta : Meta) (st : MState)
    (nm rowId tableId : String) (relation : Option String) (multiple : Bool)
    (className keyName : String) (rel : String) :
    (∀ c, cacheLookup st (tableId, rowId) = some c →
      decodeRichValue meta st (.structured nm rowId tableId) relation multiple
        className keyName = .ok (st, wrapIf multiple (.ref c))) ∧
    (cacheLookup st (tableId, rowId) = none → relation = some rel →
      relOf meta rel idKey = none → rowId ≠ "" → tableIdOf meta rel = some tableId →
      ∃ st2, decodeRichValue meta st (.structured nm rowId tableId) relation multiple
          className keyName = .ok (st2, wrapIf multiple (.ref st.heap.length)) ∧
        st2.heap.length = st.heap.length + 1 ∧
        (∀ j, j < st.heap.length → getEntity st2 j = getEntity st j) ∧
        (entityAt st2 st.heap.length).className = rel ∧
        (entityAt st2 st.heap.length).existsOnCoda = true ∧
        (entityAt st2 st.heap.length).isFetched = false ∧
        fieldValue (entityAt st2 st.heap.length) idKey = .str rowId ∧
        cacheLookup st2 (tableId, rowId) = some st.heap.length ∧
        (∀ k, k ≠ (tableId, rowId) → cacheLookup st2 k = cacheLookup st k)) := by
  constructor
  · intro c hc
    simp only [decodeRichValue, hc]
  · intro hmiss hre hrelid hrid hti
    subst hre
    have hlen : st.heap.length <
        ({ st with heap := st.heap ++ [newEntity meta rel] } : MState).heap.length := by
      simp
    have hAt : entityAt { st with heap := st.heap ++ [newEntity meta rel] }
        st.heap.length = newEntity meta rel := by
      unfold entityAt getEntity
      simp
    have hrel1 : relOf meta (entityAt { st with heap := st.heap ++ [newEntity meta rel] }
        st.heap.length).className idKey = none := by
      rw [hAt]
      exact hrelid
    have hta := tableAssign_id_eq meta { st with heap := st.heap ++ [newEntity meta rel] }
      st.heap.length { existsOnCoda := some true } (.str rowId) hlen hrel1
    rw [hAt] at hta
    have hproj : ({ heap := st.heap ++ [newEntity meta rel], cache := st.cache } : MState).heap
        = st.heap ++ [newEntity meta rel] := rfl
    have hproj2 : ({ heap := st.heap ++ [newEntity meta rel], cache := st.cache } : MState).cache
        = st.cache := rfl
    rw [hproj, hproj2] at hta
    have hgeX : getEntity
        { heap := (st.heap ++ [newEntity meta rel]).set st.heap.length
            (assignedEntity (newEntity meta rel) { existsOnCoda := some true } (.str rowId))
        , cache := st.cache } st.heap.length
        = some (assignedEntity (newEntity meta rel) { existsOnCoda := some true }
            (.str rowId)) := by
      unfold getEntity
      rw [List.getElem?_set_self (by simp)]
    have htiAE : tableIdOf meta (assignedEntity (newEntity meta rel)
        { existsOnCoda := some true } (.str rowId)).className = some tableId := hti
    have hidAE : fieldValue (assignedEntity (newEntity meta rel)
        { existsOnCoda := some true } (.str rowId)) idKey = .str rowId :=
      fieldValue_assignedEntity_id (newEntity meta rel) { existsOnCoda := some true }
        (.str rowId)
    have hrb : (rowId == "") = false := beq_eq_false_iff_ne.mpr hrid
    have hreg := registerInCache_hit meta
      { heap := (st.heap ++ [newEntity meta rel]).set st.heap.length
          (assignedEntity (newEntity meta rel) { existsOnCoda := some true } (.str rowId))
      , cache := st.cache } st.heap.length
      (assignedEntity (newEntity meta rel) { existsOnCoda := some true } (.str rowId))
      tableId rowId hgeX htiAE hidAE hrb
    refine ⟨cacheInsert
      { heap := (st.heap ++ [newEntity meta rel]).set st.heap.length
          (assignedEntity (newEntity meta rel) { existsOnCoda := some true } (.str rowId))
      , cache := st.cache } (tableId, rowId) st.heap.length, ?_, ?_, ?_, ?_, ?_, ?_, ?_, ?_, ?_⟩
    · simp only [decodeRichValue, hmiss]
      rw [hta, hreg]
    · simp [cacheInsert]
    · intro j hj
      unfold getEntity
      show ((st.heap ++ [newEntity meta rel]).set st.heap.length
          (assignedEntity (newEntity meta rel) { existsOnCoda := some true }
            (.str rowId)))[j]? = st.heap[j]?
      rw [List.getElem?_set_ne (Nat.ne_of_gt hj)]
      exact List.getElem?_append_left hj
    · unfold entityAt getEntity
      show Entity.className ((((st.heap ++ [newEntity meta rel]).set st.heap.length
          (assignedEntity (newEntity meta rel) { existsOnCoda := some true }
            (.str rowId)))[st.heap.length]?).getD dummyEntity) = rel
      rw [List.getElem?_set_self (by simp)]
      rfl
    · unfold entityAt getEntity
      show Entity.existsOnCoda ((((st.heap ++ [newEntity meta rel]).set st.heap.length
          (assignedEntity (newEntity meta rel) { existsOnCoda := some true }
            (.str rowId)))[st.heap.length]?).getD dummyEntity) = true
      rw [List.getElem?_set_self (by simp)]
      rfl
    · unfold entityAt getEntity
      show Entity.isFetched ((((st.heap ++ [newEntity meta rel]).set st.heap.length
          (assignedEntity (newEntity meta rel) { existsOnCoda := some true }
            (.str rowId)))[st.heap.length]?).getD dummyEntity) = false
      rw [List.getElem?_set_self (by simp)]
      rfl
    · unfold entityAt getEntity
      show fieldValue ((((st.heap ++ [newEntity meta rel]).set st.heap.length
          (assignedEntity (newEntity meta rel) { existsOnCoda := some true }
            (.str rowId)))[st.heap.length]?).getD dummyEntity) idKey = .str rowId
      rw [List.getElem?_set_self (by simp)]
      exact hidAE
    · unfold cacheLookup cacheInsert
      simp only
      exact lookupAssoc_updAssoc_self st.cache (tableId, rowId) st.heap.length
    · intro k hk
      unfold cacheLookup cacheInsert
      simp only
      exact lookupAssoc_updAssoc_ne st.cache (tableId, rowId) k st.heap.length
        (beq_eq_false_iff_ne.mpr hk)

theorem c2_placeholder_cache_reuse_witness :
    ∃ st2, decodeRichValue mAR MState.empty (.structured ("Rname") ("r1") ("tR"))
        (some ("R")) false ("A") ("rel") =
        .ok (st2, wrapIf false (.ref MState.empty.heap.length)) ∧
      st2.heap.length = MState.empty.heap.length + 1 ∧
      (∀ j, j < MState.empty.heap.length → getEntity st2 j = getEntity MState.empty j) ∧
      (entityAt st2 MState.empty.heap.length).className = "R" ∧
      (entityAt st2 MState.empty.heap.length).existsOnCoda = true ∧
      (entityAt st2 MState.empty.heap.length).isFetched = false ∧
      fieldValue (entityAt st2 MState.empty.heap.length) idKey = .str ("r1") ∧
      cacheLookup st2 (("tR"), ("r1")) = some MState.empty.heap.length ∧
      (∀ k, k ≠ (("tR"), ("r1")) → cacheLookup st2 k = cacheLookup MState.empty k) :=
  (c2_placeholder_cache_reuse mAR MState.empty ("Rname") ("r1") ("tR") (some ("R")) false
    ("A") ("rel") ("R")).2 (by rfl) (by rfl) (by rfl) (by decide) (by rfl)

theorem resetDirty_assignedEntity (ent : Entity) (sArg : StateArg) (v : Value) :
    resetDirty (assignedEntity ent sArg v) = assignedEntity ent sArg v := rfl

theorem getEntity_eq_of_heap (s1 s2 : MState) (h : s1.heap = s2.heap) (j : Nat) :
    getEntity s1 j = getEntity s2 j := by
  unfold getEntity
  rw [h]

theorem entityAt_eq_of_heap (s1 s2 : MState) (h : s1.heap = s2.heap) (j : Nat) :
    entityAt s1 j = entityAt s2 j := by
  unfold entityAt
  rw [getEntity_eq_of_heap s1 s2 h]

theorem entityAt_of_heap_set (s : MState) (l : List Entity) (r : Nat) (a : Entity)
    (h : s.heap = l.set r a) (hr : r < l.length) : entityAt s r = a := by
  unfold entityAt getEntity
  rw [h, List.getElem?_set_self hr]
  rfl

theorem getEntity_set_frame (s s0 : MState) (r q : Nat) (a : Entity)
    (h : s.heap = s0.heap.set r a) (hq : q ≠ r) : getEntity s q = getEntity s0 q := by
  unfold getEntity
  rw [h, List.getElem?_set_ne (Ne.symm hq)]

theorem entityAt_congr (s1 s2 : MState) (j : Nat)
    (h : getEntity s1 j = getEntity s2 j) : entityAt s1 j = entityAt s2 j := by
  unfold entityAt
  rw [h]

/-- The id-assignment loop of `insert`: given in-heap rows with pairwise
distinct references whose classes do not declare `id` as a relation, the loop
succeeds, preserves the heap size and every other entity, and leaves each row
exactly as `_assign` with its positional added row id produces it. -/
theorem insertAssignLoop_spec (meta : Meta) (ids : List String) (rows : List Nat) :
    ∀ (st : MState) (i : Nat),
    (∀ r ∈ rows, r < st.heap.length) →
    (∀ r ∈ rows, relOf meta (entityAt st r).className idKey = none) →
    rows.Nodup →
    ∃ st', insertAssignLoop meta ids st rows i = .ok st' ∧
      st'.heap.length = st.heap.length ∧
      (∀ j, j ∉ rows → getEntity st' j = getEntity st j) ∧
      (∀ jdx (hj : jdx < rows.length),
        entityAt st' (rows.get ⟨jdx, hj⟩) =
          assignedEntity (entityAt st (rows.get ⟨jdx, hj⟩)) { existsOnCoda := some true }
            (match ids[i + jdx]? with | some s => .str s | none => .undef)) := by
  induction rows with
  | nil =>
    intro st i hb hrel hnd
    refine ⟨st, rfl, rfl, fun j _ => rfl, fun jdx hj => absurd hj (by simp)⟩
  | cons r rest ih =>
    intro st i hb hrel hnd
    have hbr : r < st.heap.length := hb r (by simp)
    have hrelr : relOf meta (entityAt st r).className idKey = none := hrel r (by simp)
    have hrni : r ∉ rest := (List.nodup_cons.mp hnd).1
    have hndr : rest.Nodup := (List.nodup_cons.mp hnd).2
    have hta := tableAssign_id_eq meta st r { existsOnCoda := some true }
      (match ids[i]? with | some s => .str s | none => .undef) hbr hrelr
    have hheap1 : (registerInCache meta
        { heap := st.heap.set r (assignedEntity (entityAt st r) { existsOnCoda := some true }
            (match ids[i]? with | some s => .str s | none => .undef))
        , cache := st.cache } r).heap =
        st.heap.set r (assignedEntity (entityAt st r) { existsOnCoda := some true }
            (match ids[i]? with | some s => .str s | none => .undef)) := by
      rw [registerInCache_heap]
    have hbr1 : r < (registerInCache meta
        { heap := st.heap.set r (assignedEntity (entityAt st r) { existsOnCoda := some true }
            (match ids[i]? with | some s => .str s | none => .undef))
        , cache := st.cache } r).heap.length := by
      rw [hheap1, List.length_set]
      exact hbr
    have hat1 : entityAt (registerInCache meta
        { heap := st.heap.set r (assignedEntity (entityAt st r) { existsOnCoda := some true }
            (match ids[i]? with | some s => .str s | none => .undef))
        , cache := st.cache } r) r =
        assignedEntity (entityAt st r) { existsOnCoda := some true }
            (match ids[i]? with | some s => .str s | none => .undef) :=
      entityAt_of_heap_set _ st.heap r _ hheap1 hbr
    have hheap2 : (updateEntity (registerInCache meta
        { heap := st.heap.set r (assignedEntity (entityAt st r) { existsOnCoda := some true }
            (match ids[i]? with | some s => .str s | none => .undef))
        , cache := st.cache } r) r resetDirty).heap =
        st.heap.set r (assignedEntity (entityAt st r) { existsOnCoda := some true }
            (match ids[i]? with | some s => .str s | none => .undef)) := by
      rw [updateEntity_heap, hat1, resetDirty_assignedEntity, hheap1, List.set_set]
    have hb2 : ∀ q ∈ rest, q < (updateEntity (registerInCache meta
        { heap := st.heap.set r (assignedEntity (entityAt st r) { existsOnCoda := some true }
            (match ids[i]? with | some s => .str s | none => .undef))
        , cache := st.cache } r) r resetDirty).heap.length := by
      intro q hq
      rw [hheap2, List.length_set]
      exact hb q (by simp [hq])
    have hgframe : ∀ q, q ≠ r → getEntity (updateEntity (registerInCache meta
        { heap := st.heap.set r (assignedEntity (entityAt st r) { existsOnCoda := some true }
            (match ids[i]? with | some s => .str s | none => .undef))
        , cache := st.cache } r) r resetDirty) q = getEntity st q := by
      intro q hq
      exact getEntity_set_frame _ st r q _ hheap2 hq
    have hrel2 : ∀ q ∈ rest, relOf meta (entityAt (updateEntity (registerInCache meta
        { heap := st.heap.set r (assignedEntity (entityAt st r) { existsOnCoda := some true }
            (match ids[i]? with | some s => .str s | none => .undef))
        , cache := st.cache } r) r resetDirty) q).className idKey = none := by
      intro q hq
      have hqr : q ≠ r := fun he => hrni (he ▸ hq)
      rw [entityAt_congr _ st q (hgframe q hqr)]
      exact hrel q (by simp [hq])
    rcases ih (updateEntity (registerInCache meta
        { heap := st.heap.set r (assignedEntity (entityAt st r) { existsOnCoda := some true }
            (match ids[i]? with | some s => .str s | none => .undef))
        , cache := st.cache } r) r resetDirty) (i + 1) hb2 hrel2 hndr with
      ⟨st', hloop, hlen, hframe, hrows⟩
    refine ⟨st', ?_, ?_, ?_, ?_⟩
    · simp only [insertAssignLoop]
      rw [hta]
      exact hloop
    · rw [hlen, hheap2, List.length_set]
    · intro j hj
      have hjr : j ≠ r := fun he => hj (by simp [he])
      have hjrest : j ∉ rest := fun hm => hj (by simp [hm])
      rw [hframe j hjrest]
      exact hgframe j hjr
    · intro jdx hj
      cases jdx with
      | zero =>
        have hrrest : r ∉ rest := hrni
        have h1 : entityAt st' r = entityAt (updateEntity (registerInCache meta
            { heap := st.heap.set r (assignedEntity (entityAt st r)
                { existsOnCoda := some true }
                (match ids[i]? with | some s => .str s | none => .undef))
            , cache := st.cache } r) r resetDirty) r :=
          entityAt_congr _ _ r (hframe r hrrest)
        have h2 : entityAt (updateEntity (registerInCache meta
            { heap := st.heap.set r (assignedEntity (entityAt st r)
                { existsOnCoda := some true }
                (match ids[i]? with | some s => .str s | none => .undef))
            , cache := st.cache } r) r resetDirty) r =
            assignedEntity (entityAt st r) { existsOnCoda := some true }
              (match ids[i]? with | some s => .str s | none => .undef) :=
          entityAt_of_heap_set _ st.heap r _ hheap2 hbr
        show entityAt st' r = assignedEntity (entityAt st r) { existsOnCoda := some true }
          (match ids[i + 0]? with | some s => .str s | none => .undef)
        rw [h1, h2]
        rfl
      | succ k =>
        have hk : k < rest.length := Nat.lt_of_succ_lt_succ hj
        have hmem : rest.get ⟨k, hk⟩ ∈ rest := List.get_mem rest k hk
        have hqr : rest.get ⟨k, hk⟩ ≠ r := fun he => hrni (he ▸ hmem)
        have hidx : i + 1 + k = i + (k + 1) := by omega
        have h3 := hrows k hk
        rw [hidx] at h3
        show entityAt st' (rest.get ⟨k, hk⟩) =
          assignedEntity (entityAt st (rest.get ⟨k, hk⟩)) { existsOnCoda := some true }
            (match ids[i + (k + 1)]? with | some s => .str s | none => .undef)
        rw [h3]
        have h4 : entityAt (updateEntity (registerInCache meta
            { heap := st.heap.set r (assignedEntity (entityAt st r)
                { existsOnCoda := some true }
                (match ids[i]? with | some s => .str s | none => .undef))
            , cache := st.cache } r) r resetDirty) (rest.get ⟨k, hk⟩) =
            entityAt st (rest.get ⟨k, hk⟩) :=
          entityAt_congr _ st _ (hgframe _ hqr)
        rw [h4]

/-- C9: confirmed. `insert` rejects any batch containing a row that already
has a (truthy) id; on a non-empty batch of distinct fresh in-heap rows whose
request serialises, it succeeds and assigns each row the added row id at its
position: afterwards the row's `id` equals that string, `existsOnCoda` is
true, `isFetched` stays false, and the row is clean — `isDirty()` is false
and `getDirtyValues()` is empty. -/
theorem c9_insert_assigns_ids (meta : Meta) (st : MState) (rows : List Nat)
    (ids : List String)
    (hb : ∀ r ∈ rows, r < st.heap.length)
    (hrel : ∀ r ∈ rows, relOf meta (entityAt st r).className idKey = none)
    (hnd : rows.Nodup)
    (hnoid : ∀ r ∈ rows, truthy (fieldValue (entityAt st r) idKey) = false)
    (hfetch : ∀ r ∈ rows, (entityAt st r).isFetched = false)
    (hkeys : ∀ r ∈ rows, nodupKeys (entityAt st r).fields)
    (hflat : ∀ r ∈ rows, ∀ kv ∈ (entityAt st r).fields, Value.flat kv.2 = true)
    (hlen : ids.length = rows.length)
    (r0 : Nat) (rest0 : List Nat) (hrows : rows = r0 :: rest0)
    (hti : ((tableIdOf meta (entityAt st r0).className).getD "") ≠ "")
    (hreq : buildRequestRows meta st rows = .ok ()) :
    (∃ st', insertRows meta st rows ids = .ok st' ∧
      ∀ jdx (hj : jdx < rows.length), ∃ s, ids[jdx]? = some s ∧
        fieldValue (entityAt st' (rows.get ⟨jdx, hj⟩)) idKey = .str s ∧
        (entityAt st' (rows.get ⟨jdx, hj⟩)).existsOnCoda = true ∧
        (entityAt st' (rows.get ⟨jdx, hj⟩)).isFetched = false ∧
        isDirty (entityAt st' (rows.get ⟨jdx, hj⟩)) = false ∧
        getDirtyValues (entityAt st' (rows.get ⟨jdx, hj⟩)) = []) ∧
    (∀ (st2 : MState) (rows2 : List Nat) (ids2 : List String),
      (rows2.all fun r => !(truthy (fieldValue (entityAt st2 r) idKey))) = false →
      insertRows meta st2 rows2 ids2 =
        .error (.thrown ("All rows must not have an id to insert"))) := by
  constructor
  · rcases insertAssignLoop_spec meta ids rows st 0 hb hrel hnd with
      ⟨st', hloop, hlen', hframe, hrowsp⟩
    refine ⟨st', ?_, ?_⟩
    · unfold insertRows
      have hall : (rows.all fun r => !(truthy (fieldValue (entityAt st r) idKey))) = true := by
        rw [List.all_eq_true]
        intro r hr
        rw [hnoid r hr]
        rfl
      rw [hall]
      have htib : (((tableIdOf meta (entityAt st r0).className).getD "") == "") = false :=
        beq_eq_false_iff_ne.mpr hti
      subst hrows
      simp only [Bool.not_true, Bool.false_eq_true, if_false, htib, hreq]
      exact hloop
    · intro jdx hj
      have hji : jdx < ids.length := by
        rw [hlen]
        exact hj
      have hsome : ids[jdx]? = some (ids.get ⟨jdx, hji⟩) := by
        rw [List.getElem?_eq_getElem hji]
        rfl
      refine ⟨ids.get ⟨jdx, hji⟩, hsome, ?_, ?_, ?_, ?_, ?_⟩
      all_goals
        have hq := hrowsp jdx hj
        rw [Nat.zero_add, hsome] at hq
        have hmem : rows.get ⟨jdx, hj⟩ ∈ rows := List.get_mem rows jdx hj
        rw [hq]
      · exact fieldValue_assignedEntity_id _ _ _
      · rfl
      · show Option.getD none (entityAt st (rows.get ⟨jdx, hj⟩)).isFetched = false
        rw [Option.getD_none]
        exact hfetch _ hmem
      · rfl
      · have hndAE : nodupKeys (assignedEntity (entityAt st (rows.get ⟨jdx, hj⟩))
            { existsOnCoda := some true } (.str (ids.get ⟨jdx, hji⟩))).fields := by
          exact keys_updAssoc_nodup _ idKey _ (hkeys _ hmem)
        have hflatAE : ∀ kv ∈ (assignedEntity (entityAt st (rows.get ⟨jdx, hj⟩))
            { existsOnCoda := some true } (.str (ids.get ⟨jdx, hji⟩))).fields,
            Value.flat kv.2 = true := by
          intro kv hkv
          rcases mem_updAssoc_elim _ idKey _ kv hkv with h1 | h1
          · simp [h1, Value.flat]
          · exact hflat _ hmem kv h1
        have hgd := getDirtyValues_resetDirty (assignedEntity (entityAt st
            (rows.get ⟨jdx, hj⟩)) { existsOnCoda := some true }
            (.str (ids.get ⟨jdx, hji⟩))) hndAE hflatAE
        rw [resetDirty_assignedEntity] at hgd
        exact hgd
  · intro st2 rows2 ids2 hbad
    unfold insertRows
    rw [hbad]
    rfl

theorem c9_insert_assigns_ids_witness :
    (∃ st', insertRows mT fixBase [0] [("r9")] = .ok st' ∧
      ∀ jdx (hj : jdx < ([0] : List Nat).length), ∃ s, [("r9")][jdx]? = some s ∧
        fieldValue (entityAt st' (([0] : List Nat).get ⟨jdx, hj⟩)) idKey = .str s ∧
        (entityAt st' (([0] : List Nat).get ⟨jdx, hj⟩)).existsOnCoda = true ∧
        (entityAt st' (([0] : List Nat).get ⟨jdx, hj⟩)).isFetched = false ∧
        isDirty (entityAt st' (([0] : List Nat).get ⟨jdx, hj⟩)) = false ∧
        getDirtyValues (entityAt st' (([0] : List Nat).get ⟨jdx, hj⟩)) = []) ∧
    (∀ (st2 : MState) (rows2 : List Nat) (ids2 : List String),
      (rows2.all fun r => !(truthy (fieldValue (entityAt st2 r) idKey))) = false →
      insertRows mT st2 rows2 ids2 =
        .error (.thrown ("All rows must not have an id to insert"))) :=
  c9_insert_assigns_ids mT fixBase [0] [("r9")] (by decide) (by decide) (by decide)
    (by decide) (by decide) (by unfold nodupKeys; decide) (by decide) (by rfl) 0 []
    (by rfl) (by decide) (by rfl)

end Coda
